import Mathlib

/-!
# Verification of the business-data HTML update tool

This development gives a shallow embedding of `scripts/update-business-data.js`
(the closure-aware variant, together with the business configuration in
`scripts/business-data.js`) and proves properties of the projection functions
(`formatTime12Hour`, `getNextDay`, `getActiveTemporaryClosure`,
`generateStructuredData`, `generateHoursTableHTML`, ...) and of the document
patcher `updateHTMLFile`.

Strings are embedded as `List Char`.  The JavaScript regular expressions used
by the patcher are embedded by a small deterministic matching engine
(`tryMatch` / `findMatch` / `replaceFirst` over a list of `Atom`s): every
pattern in the source is a sequence of literals, greedy `\s*` gaps that are
always followed by a character class excluding whitespace, greedy `[^c]`
classes that are always followed by a literal starting with `c`, and lazy
`[\s\S]*?` interiors; for such patterns the backtracking regex semantics of
JavaScript coincide with the deterministic semantics implemented here.
-/

set_option maxHeartbeats 1000000
set_option maxRecDepth 100000

/-- Whitespace test matching the JavaScript `\s` character class on the
characters that occur in the managed documents. -/
def isWsChar (c : Char) : Bool :=
  c = ' ' || c = '\n' || c = '\t' || c = '\r' || c = '\x0b' || c = '\x0c'

/-- Every character of the list is whitespace. -/
def allWs (l : List Char) : Bool := l.all isWsChar

/-- Split a character list at every occurrence of the separator character,
mirroring JavaScript `String.prototype.split` with a single-character
separator. -/
def splitOnChar (sep : Char) : List Char → List (List Char)
  | [] => [[]]
  | c :: cs =>
    let r := splitOnChar sep cs
    if c = sep then
      [] :: r
    else
      match r with
      | [] => [[c]]
      | p :: ps => (c :: p) :: ps

/-- Decimal digits of a natural number (fuel-driven so that it reduces in the
kernel); accumulates into `acc`. -/
def natDigitsCore : Nat → Nat → List Char → List Char
  | 0, _, acc => acc
  | f + 1, n, acc =>
    let d := Char.ofNat (48 + n % 10)
    if n < 10 then d :: acc
    else natDigitsCore f (n / 10) (d :: acc)

/-- Decimal rendering of a natural number, as produced by JavaScript
number-to-string conversion for non-negative integers. -/
def natToChars (n : Nat) : List Char := natDigitsCore (n + 1) n []

/-- Render a natural number padded to (at least) two digits with a leading
zero, as produced by `String(n).padStart(2, '0')` for `n < 100`. -/
def pad2 (n : Nat) : List Char :=
  if n < 10 then '0' :: natToChars n else natToChars n

/-- Helper of `parseNatDigits`. -/
def parseNatAux : List Char → Nat → Option Nat
  | [], acc => some acc
  | c :: cs, acc =>
    if c.isDigit then parseNatAux cs (acc * 10 + (c.toNat - 48)) else none

/-- Parse a list of decimal digits into a natural number; `none` when the list
is empty or contains a non-digit.  Used to embed `parseInt(s, 10)` on inputs
that consist solely of digits (the only inputs the data model produces). -/
def parseNatDigits : List Char → Option Nat
  | [] => none
  | l => parseNatAux l 0

example : natToChars 2026 = "2026".toList := by decide
example : pad2 7 = "07".toList := by decide
example : parseNatDigits "09".toList = some 9 := by decide
example : splitOnChar ':' "09:30".toList = ["09".toList, "30".toList] := by decide

/-! ## The pattern-matching engine

Embeds the JavaScript regular expressions used by `updateHTMLFile`.  An
`Atom` is one piece of such a pattern. -/

/-- One component of an embedded pattern. -/
inductive Atom where
  /-- A literal character sequence. -/
  | lit (s : List Char)
  /-- Greedy `\s*`.  In every source pattern this is followed by a literal
  beginning with a non-whitespace character, so greedy matching without
  backtracking is exact. -/
  | ws
  /-- Greedy `[^c]+` (at least one character different from `c`).  In every
  source pattern this is followed by a literal beginning with `c`. -/
  | notch (c : Char)
  /-- Greedy `[^c]*`. -/
  | notchStar (c : Char)
  /-- Lazy `[\s\S]*?`. -/
  | lazyAny
deriving DecidableEq

/-- Split off the longest prefix whose characters satisfy `p`. -/
def spanList (p : Char → Bool) : List Char → List Char × List Char
  | [] => ([], [])
  | c :: cs =>
    if p c then
      let r := spanList p cs
      (c :: r.1, r.2)
    else ([], c :: cs)

/-- Strip a literal prefix, or fail. -/
def stripLit : List Char → List Char → Option (List Char)
  | [], cs => some cs
  | _, [] => none
  | l :: ls, c :: cs => if l = c then stripLit ls cs else none

/-- The lazy-star loop: try the continuation at the current position; on
failure consume one character into the lazy group and retry.  This is exactly
the shortest-match semantics of `[\s\S]*?`. -/
def lazyLoop (cont : List Char → Option (List (List Char) × List Char)) :
    List Char → Option (List (List Char) × List Char)
  | [] =>
    match cont [] with
    | some (ps, r) => some ([] :: ps, r)
    | none => none
  | c :: cs' =>
    match cont (c :: cs') with
    | some (ps, r) => some ([] :: ps, r)
    | none =>
      match lazyLoop cont cs' with
      | some (p :: ps, r) => some ((c :: p) :: ps, r)
      | some ([], _) => none
      | none => none

/-- Match a pattern at the beginning of the input.  On success, returns the
list of character sequences consumed by each atom (in order) and the
unconsumed remainder. -/
def tryMatch : List Atom → List Char → Option (List (List Char) × List Char)
  | [], cs => some ([], cs)
  | .lit s :: rest, cs =>
    match stripLit s cs with
    | some cs' => (tryMatch rest cs').map (fun (ps, r) => (s :: ps, r))
    | none => none
  | .ws :: rest, cs =>
    let sp := spanList isWsChar cs
    (tryMatch rest sp.2).map (fun (ps, r) => (sp.1 :: ps, r))
  | .notch c :: rest, cs =>
    let sp := spanList (fun d => d ≠ c) cs
    if sp.1 = [] then none
    else (tryMatch rest sp.2).map (fun (ps, r) => (sp.1 :: ps, r))
  | .notchStar c :: rest, cs =>
    let sp := spanList (fun d => d ≠ c) cs
    (tryMatch rest sp.2).map (fun (ps, r) => (sp.1 :: ps, r))
  | .lazyAny :: rest, cs => lazyLoop (tryMatch rest) cs

/-- Find the leftmost match of a pattern: returns the text before the match,
the per-atom pieces of the match, and the text after the match. -/
def findMatch (pat : List Atom) : List Char → Option (List Char × List (List Char) × List Char)
  | [] =>
    match tryMatch pat [] with
    | some (ps, r) => some ([], ps, r)
    | none => none
  | c :: cs' =>
    match tryMatch pat (c :: cs') with
    | some (ps, r) => some ([], ps, r)
    | none => (findMatch pat cs').map (fun (p, ps, r) => (c :: p, ps, r))

/-- `content.replace(regex, cb)` for a non-global regex whose callback builds
the replacement from the matched groups: replace the leftmost match, or leave
the input unchanged.  The Boolean records whether a match was found (the
source sets its `updated` flag inside the replacement callback, and guards the
call with `regex.test(content)`, so the flag is set exactly when the pattern
matches). -/
def replaceFirst (pat : List Atom) (f : List (List Char) → List Char) (cs : List Char) :
    List Char × Bool :=
  match findMatch pat cs with
  | some (p, ps, r) => (p ++ f ps ++ r, true)
  | none => (cs, false)

/-! ## Calendar arithmetic

Embeds the JavaScript `Date` behaviour used by the script: parsing of
`"YYYY-MM-DD" + "T00:00:00"` strings (which V8 accepts exactly when the
fields are in range for the proleptic Gregorian calendar), date comparison at
local midnight, and `setDate(getDate() + 1)` rollover. -/

/-- A calendar date (proleptic Gregorian). -/
structure CivilDate where
  year : Nat
  month : Nat
  day : Nat
deriving DecidableEq

/-- Gregorian leap-year test. -/
def isLeap (y : Nat) : Bool := (y % 4 = 0 && y % 100 ≠ 0) || y % 400 = 0

/-- Number of days of month `m` (1-based) in year `y`. -/
def daysInMonth (y m : Nat) : Nat :=
  if m = 2 then (if isLeap y then 29 else 28)
  else if m = 4 || m = 6 || m = 9 || m = 11 then 30
  else 31

/-- Days of year `y` that precede month `m` (1-based). -/
def daysBeforeMonth (y m : Nat) : Nat :=
  (List.range (m - 1)).foldl (fun acc i => acc + daysInMonth y (i + 1)) 0

/-- Leap years in `[1, y-1]`. -/
def leapsBefore (y : Nat) : Nat := (y - 1) / 4 - (y - 1) / 100 + (y - 1) / 400

/-- Day count from the proleptic Gregorian epoch: `0001-01-01` maps to `0`.
This is the specification-side calendar measure used to state that the
successor function advances by exactly one day. -/
def rataDie (dt : CivilDate) : Nat :=
  365 * (dt.year - 1) + leapsBefore dt.year + daysBeforeMonth dt.year dt.month + (dt.day - 1)

/-- In-range test for a parsed date, matching the validation V8 performs on
ISO `YYYY-MM-DD` date strings. -/
def validDate (dt : CivilDate) : Bool :=
  1 ≤ dt.month && dt.month ≤ 12 && 1 ≤ dt.day && dt.day ≤ daysInMonth dt.year dt.month

/-- The next calendar day, as computed by `date.setDate(date.getDate() + 1)`
on a valid date. -/
def nextCivilDay (dt : CivilDate) : CivilDate :=
  if dt.day < daysInMonth dt.year dt.month then ⟨dt.year, dt.month, dt.day + 1⟩
  else if dt.month < 12 then ⟨dt.year, dt.month + 1, 1⟩
  else ⟨dt.year + 1, 1, 1⟩

/-- Lexicographic (= chronological, on valid dates) order; embeds the
timestamp comparison of two `Date`s at local midnight of the same zone. -/
def dateLe (a b : CivilDate) : Bool :=
  a.year < b.year ||
    (a.year = b.year &&
      (a.month < b.month || (a.month = b.month && a.day ≤ b.day)))

/-- Parse an ISO `YYYY-MM-DD` date string the way `new Date(s + "T00:00:00")`
does: four digit year, two digit month and day, all fields in calendar range;
anything else yields an invalid date (`none`). -/
def parseIsoDate (s : List Char) : Option CivilDate :=
  match splitOnChar '-' s with
  | [ys, ms, ds] =>
    if ys.length = 4 && ms.length = 2 && ds.length = 2 then
      match parseNatDigits ys, parseNatDigits ms, parseNatDigits ds with
      | some y, some m, some d =>
        if validDate ⟨y, m, d⟩ then some ⟨y, m, d⟩ else none
      | _, _, _ => none
    else none
  | _ => none

/-- Render a date the way `getNextDay` builds its result string:
`year + '-' + String(month).padStart(2,'0') + '-' + String(day).padStart(2,'0')`.
The year is NOT zero-padded. -/
def renderJsDate (dt : CivilDate) : List Char :=
  natToChars dt.year ++ "-".toList ++ pad2 dt.month ++ "-".toList ++ pad2 dt.day

/-- `getNextDay` from the source: parse, add one day, re-render.  On an
unparseable input the JavaScript original produces `"NaN-NaN-NaN"`. -/
def getNextDay (s : List Char) : List Char :=
  match parseIsoDate s with
  | some dt => renderJsDate (nextCivilDay dt)
  | none => "NaN-NaN-NaN".toList

/-- Month names table from `formatDate` / `formatDateWithDay` (1-based
index; out of range corresponds to the JavaScript `undefined`). -/
def monthName (m : Nat) : List Char :=
  match m with
  | 1 => "January".toList | 2 => "February".toList | 3 => "March".toList
  | 4 => "April".toList | 5 => "May".toList | 6 => "June".toList
  | 7 => "July".toList | 8 => "August".toList | 9 => "September".toList
  | 10 => "October".toList | 11 => "November".toList | 12 => "December".toList
  | _ => "undefined".toList

/-- Weekday names table (Sunday-indexed, as `Date.prototype.getDay`). -/
def dayName (d : Nat) : List Char :=
  match d with
  | 0 => "Sunday".toList | 1 => "Monday".toList | 2 => "Tuesday".toList
  | 3 => "Wednesday".toList | 4 => "Thursday".toList | 5 => "Friday".toList
  | 6 => "Saturday".toList
  | _ => "undefined".toList

/-- `date.getDay()`: day of week, `0` = Sunday.  `0001-01-01` (rata die `0`)
was a Monday in the proleptic Gregorian calendar. -/
def jsGetDay (dt : CivilDate) : Nat := (rataDie dt + 1) % 7

/-- `formatDate` from the source: `"Month D, YYYY"`. -/
def formatDate (s : List Char) : List Char :=
  match parseIsoDate s with
  | some dt => monthName dt.month ++ " ".toList ++ natToChars dt.day ++ ", ".toList ++ natToChars dt.year
  | none => "undefined NaN, NaN".toList

/-- `formatDateWithDay` from the source: `"Weekday, Month D, YYYY"`. -/
def formatDateWithDay (s : List Char) : List Char :=
  match parseIsoDate s with
  | some dt =>
    dayName (jsGetDay dt) ++ ", ".toList ++ monthName dt.month ++ " ".toList ++
      natToChars dt.day ++ ", ".toList ++ natToChars dt.year
  | none => "undefined, undefined NaN, NaN".toList

example : getNextDay "2025-12-31".toList = "2026-01-01".toList := by decide
example : getNextDay "2025-02-28".toList = "2025-03-01".toList := by decide
example : getNextDay "2024-02-28".toList = "2024-02-29".toList := by decide
example : jsGetDay ⟨2025, 10, 12⟩ = 0 := by decide

/-! ## The business profile (`scripts/business-data.js`) -/

/-- One entry of the weekly `hours` table. -/
structure DaySchedule where
  day : List Char
  «open» : Option (List Char)
  close : Option (List Char)
  closed : Bool

/-- The optional `temporaryClosure` record. -/
structure TemporaryClosure where
  startDate : List Char
  endDate : List Char
  message : Option (List Char)

/-- The `address` sub-record. -/
structure AddressData where
  street : List Char
  city : List Char
  region : List Char
  regionCode : List Char
  postalCode : List Char
  country : List Char
  countryCode : List Char

/-- The `phone` sub-record. -/
structure PhoneData where
  display : List Char
  tel : List Char

/-- The `coordinates` sub-record.  The floating-point degrees are carried in
their JavaScript decimal rendering (they are only ever serialized). -/
structure CoordinatesData where
  latitude : List Char
  longitude : List Char

/-- The `images` sub-record. -/
structure ImagesData where
  defaultImage : List Char

/-- The whole business profile (`module.exports` of `business-data.js`). -/
structure BusinessData where
  name : List Char
  shortName : List Char
  address : AddressData
  phone : PhoneData
  coordinates : CoordinatesData
  url : List Char
  priceRange : List Char
  description : List Char
  tagline : List Char
  hours : List DaySchedule
  images : ImagesData
  servesCuisine : Option (List Char)
  temporaryClosure : Option TemporaryClosure

/-- JavaScript string coercion of a possibly-`null` string, as performed by
the `+` concatenation operator (`null` renders as `"null"`). -/
def jsStr : Option (List Char) → List Char
  | some s => s
  | none => "null".toList

/-- The concrete profile from `scripts/business-data.js`. -/
def christophers : BusinessData where
  name := "Christopher's Meat Market".toList
  shortName := "Christopher's".toList
  address :=
    { street := "6146 Perth Street".toList
      city := "Richmond".toList
      region := "Ontario".toList
      regionCode := "ON".toList
      postalCode := "K0A 2Z0".toList
      country := "CA".toList
      countryCode := "CA".toList }
  phone :=
    { display := "(613) 838-8800".toList
      tel := "+1-613-838-8800".toList }
  coordinates :=
    { latitude := "45.193608692634434".toList
      longitude := "-75.84403566715355".toList }
  url := "https://christophersmeatmarket.com".toList
  priceRange := "$$".toList
  description := "Family-owned butcher shop in Richmond, Ontario, specializing in quality free-range, grain-fed meats. Over 25 years of experience.".toList
  tagline := "Quality Products for Families".toList
  hours :=
    [ ⟨"Monday".toList, none, none, true⟩
    , ⟨"Tuesday".toList, some "09:30".toList, some "17:00".toList, false⟩
    , ⟨"Wednesday".toList, some "09:30".toList, some "17:00".toList, false⟩
    , ⟨"Thursday".toList, some "09:30".toList, some "17:00".toList, false⟩
    , ⟨"Friday".toList, some "09:30".toList, some "17:00".toList, false⟩
    , ⟨"Saturday".toList, some "09:00".toList, some "17:00".toList, false⟩
    , ⟨"Sunday".toList, none, none, true⟩ ]
  images := { defaultImage := "img/slide-1.jpg".toList }
  servesCuisine := some "Butcher Shop".toList
  temporaryClosure := none

/-! ## Projection functions -/

/-- `parseInt(s, 10)`: skip leading whitespace, then parse the longest digit
sequence; `none` models `NaN` (no digits found; signs do not occur in the
inputs of this module). -/
def jsParseInt (s : List Char) : Option Nat :=
  let t := (spanList isWsChar s).2
  let digits := (spanList Char.isDigit t).1
  parseNatDigits digits

/-- `formatTime12Hour` from the source.  The falsy test `!time24` treats both
absent input and the empty string as absent; a `NaN` hour (no digits) falls
through the JavaScript expressions `hour >= 12` (false) and
`hour % 12 || 12` (12). -/
def formatTime12Hour (time24 : Option (List Char)) : Option (List Char) :=
  match time24 with
  | none => none
  | some s =>
    if s = [] then none
    else
      let parts := splitOnChar ':' s
      let hoursStr := parts.headD []
      let minutes := match parts with | _ :: m :: _ => m | _ => "undefined".toList
      let hour? := jsParseInt hoursStr
      let ampm := match hour? with
        | some h => if 12 ≤ h then "pm".toList else "am".toList
        | none => "am".toList
      let hour12 := match hour? with
        | some h => if h % 12 = 0 then 12 else h % 12
        | none => 12
      some (natToChars hour12 ++ ":".toList ++ minutes ++ " ".toList ++ ampm)

/-- `getActiveTemporaryClosure` from the source.  The original reads the
current local date (`new Date()` truncated to midnight); the embedding passes
that date explicitly.  Comparison of midnight-anchored `Date` values is
chronological comparison of the calendar dates, and `today <= endDate
23:59:59` holds for a midnight `today` exactly when `today`'s date is at most
`endDate`; an unparseable configured date yields an invalid `Date`, whose
comparisons are false. -/
def getActiveTemporaryClosure (bd : BusinessData) (today : CivilDate) : Option TemporaryClosure :=
  match bd.temporaryClosure with
  | none => none
  | some tc =>
    match parseIsoDate tc.startDate, parseIsoDate tc.endDate with
    | some s, some e => if dateLe s today && dateLe today e then some tc else none
    | _, _ => none

/-- One `OpeningHoursSpecification` entry of the structured data. -/
structure OpeningRule where
  dayOfWeek : List (List Char)
  opens : List Char
  closes : List Char
deriving DecidableEq

/-- The time-slot key `hour.open + '-' + hour.close`. -/
def slotKey (h : DaySchedule) : List Char := jsStr h.«open» ++ "-".toList ++ jsStr h.close

/-- Append `d` to the group of key `k`, or create that group at the end:
the update step of the `hoursBySlot` accumulation (JavaScript object keys of
this shape enumerate in insertion order). -/
def pushKey : List (List Char × List (List Char)) → List Char → List Char →
    List (List Char × List (List Char))
  | [], k, d => [(k, [d])]
  | (k', ds) :: rest, k, d =>
    if k' = k then (k', ds ++ [d]) :: rest else (k', ds) :: pushKey rest k d

/-- The `hoursBySlot` accumulation of `generateStructuredData`. -/
def hoursBySlot (hours : List DaySchedule) : List (List Char × List (List Char)) :=
  hours.foldl (fun acc h => if h.closed then acc else pushKey acc (slotKey h) h.day) []

/-- The grouped opening-hours rules (`Object.keys(hoursBySlot).map(...)`):
each key is split at `'-'` back into `opens` and `closes`. -/
def openingHoursRules (hours : List DaySchedule) : List OpeningRule :=
  (hoursBySlot hours).map (fun kd =>
    let parts := splitOnChar '-' kd.1
    { dayOfWeek := kd.2
      opens := parts.headD []
      closes := match parts with | _ :: c :: _ => c | _ => "undefined".toList })

/-- The structured-data record built by `generateStructuredData`, with fields
listed in the JavaScript insertion order used for serialization. -/
structure StructuredData where
  name : List Char
  image : List Char
  streetAddress : List Char
  addressLocality : List Char
  addressRegion : List Char
  postalCode : List Char
  addressCountry : List Char
  latitude : List Char
  longitude : List Char
  url : List Char
  telephone : List Char
  priceRange : List Char
  openingHoursSpecification : Option (List OpeningRule)
  description : List Char
  servesCuisine : Option (List Char)
deriving DecidableEq

/-- `generateStructuredData` from the source.  `imageOpt` and `descOpt` are
`options.image` / `options.description`; `today` is the current local date
consumed via `getActiveTemporaryClosure`.  The opening-hours grouping runs
only when no temporary closure is active, and the resulting property is
attached only when the rule list is non-empty.  The `@context` and `@type`
tags are fixed strings and are carried by the serializer. -/
def generateStructuredData (bd : BusinessData) (today : CivilDate)
    (imageOpt descOpt : Option (List Char)) : StructuredData :=
  let tempClosure := getActiveTemporaryClosure bd today
  let rules := if tempClosure.isSome then [] else openingHoursRules bd.hours
  { name := bd.name
    image := bd.url ++ "/".toList ++ imageOpt.getD bd.images.defaultImage
    streetAddress := bd.address.street
    addressLocality := bd.address.city
    addressRegion := bd.address.regionCode
    postalCode := bd.address.postalCode
    addressCountry := bd.address.countryCode
    latitude := bd.coordinates.latitude
    longitude := bd.coordinates.longitude
    url := bd.url
    telephone := bd.phone.tel
    priceRange := bd.priceRange
    openingHoursSpecification := if rules.length > 0 then some rules else none
    description := descOpt.getD bd.description
    servesCuisine := match bd.servesCuisine with
      | some c => if c = [] then none else some c
      | none => none }

/-! ## JSON serialization (`JSON.stringify(data, null, 2)`) -/

/-- An opening brace as a character list. -/
def lbrace : List Char := [Char.ofNat 123]

/-- A closing brace as a character list. -/
def rbrace : List Char := [Char.ofNat 125]

/-- Newline as a character list. -/
def nlc : List Char := "\n".toList

/-- JSON escaping of one character (the escapes that can arise from this
repository's data; other control characters do not occur). -/
def jsonEscapeChar (c : Char) : List Char :=
  if c = '"' then ['\\', '"']
  else if c = '\\' then ['\\', '\\']
  else if c = '\n' then ['\\', 'n']
  else if c = '\t' then ['\\', 't']
  else if c = '\r' then ['\\', 'r']
  else [c]

/-- JSON escaping of a string body. -/
def jsonEscape (s : List Char) : List Char :=
  s.foldr (fun c acc => jsonEscapeChar c ++ acc) []

/-- A JSON string literal. -/
def jq (s : List Char) : List Char := '"' :: (jsonEscape s ++ "\"".toList)

/-- One `"key": value` line at the given indentation. -/
def jsonKV (ind : Nat) (k : List Char) (v : List Char) : List Char :=
  List.replicate ind ' ' ++ jq k ++ ": ".toList ++ v

/-- Serialization of one opening-hours rule object inside the
`openingHoursSpecification` array (array elements are at depth 2). -/
def renderRule (r : OpeningRule) : List Char :=
  "    ".toList ++ lbrace ++ nlc ++
  jsonKV 6 "@type".toList (jq "OpeningHoursSpecification".toList) ++ ",".toList ++ nlc ++
  List.replicate 6 ' ' ++ jq "dayOfWeek".toList ++ ": [".toList ++ nlc ++
  List.intercalate (",".toList ++ nlc) (r.dayOfWeek.map (fun d => "        ".toList ++ jq d)) ++ nlc ++
  "      ],".toList ++ nlc ++
  jsonKV 6 "opens".toList (jq r.opens) ++ ",".toList ++ nlc ++
  jsonKV 6 "closes".toList (jq r.closes) ++ nlc ++
  "    ".toList ++ rbrace

/-- `JSON.stringify(data, null, 2)` for the structured-data record, with keys
in insertion order; `openingHoursSpecification` and `servesCuisine` appear
only when present. -/
def renderStructuredDataJSON (sd : StructuredData) : List Char :=
  let addressEntry :=
    "  ".toList ++ jq "address".toList ++ ": ".toList ++ lbrace ++ nlc ++
    List.intercalate (",".toList ++ nlc)
      [ jsonKV 4 "@type".toList (jq "PostalAddress".toList)
      , jsonKV 4 "streetAddress".toList (jq sd.streetAddress)
      , jsonKV 4 "addressLocality".toList (jq sd.addressLocality)
      , jsonKV 4 "addressRegion".toList (jq sd.addressRegion)
      , jsonKV 4 "postalCode".toList (jq sd.postalCode)
      , jsonKV 4 "addressCountry".toList (jq sd.addressCountry) ] ++ nlc ++
    "  ".toList ++ rbrace
  let geoEntry :=
    "  ".toList ++ jq "geo".toList ++ ": ".toList ++ lbrace ++ nlc ++
    List.intercalate (",".toList ++ nlc)
      [ jsonKV 4 "@type".toList (jq "GeoCoordinates".toList)
      , jsonKV 4 "latitude".toList sd.latitude
      , jsonKV 4 "longitude".toList sd.longitude ] ++ nlc ++
    "  ".toList ++ rbrace
  let entries : List (List Char) :=
    [ jsonKV 2 "@context".toList (jq "https://schema.org".toList)
    , jsonKV 2 "@type".toList (jq "ButcherShop".toList)
    , jsonKV 2 "name".toList (jq sd.name)
    , jsonKV 2 "image".toList (jq sd.image)
    , addressEntry
    , geoEntry
    , jsonKV 2 "url".toList (jq sd.url)
    , jsonKV 2 "telephone".toList (jq sd.telephone)
    , jsonKV 2 "priceRange".toList (jq sd.priceRange) ] ++
    (match sd.openingHoursSpecification with
     | some rules =>
       [ "  ".toList ++ jq "openingHoursSpecification".toList ++ ": [".toList ++ nlc ++
         List.intercalate (",".toList ++ nlc) (rules.map renderRule) ++ nlc ++
         "  ]".toList ]
     | none => []) ++
    [ jsonKV 2 "description".toList (jq sd.description) ] ++
    (match sd.servesCuisine with
     | some c => [jsonKV 2 "servesCuisine".toList (jq c)]
     | none => [])
  lbrace ++ nlc ++ List.intercalate (",".toList ++ nlc) entries ++ nlc ++ rbrace

/-- `generateStructuredDataJSON(options)` composed with the page variant
selection of `updateHTMLFile`: on non-index documents the `servesCuisine`
property is deleted before serialization. -/
def structuredDataJSONFor (isIndex : Bool) (bd : BusinessData) (today : CivilDate) : List Char :=
  if isIndex then renderStructuredDataJSON (generateStructuredData bd today none none)
  else renderStructuredDataJSON { generateStructuredData bd today none none with servesCuisine := none }

/-- The re-indentation applied before splicing the JSON into the document:
every line but the first is prefixed with four spaces. -/
def indentTail (s : List Char) : List Char :=
  match splitOnChar '\n' s with
  | [] => []
  | l :: ls => List.intercalate nlc (l :: ls.map (fun x => "    ".toList ++ x))

/-! ## Markup projections -/

/-- The inline warning icon of the closure card. -/
def warningIcon : List Char :=
  "<svg xmlns=\"http://www.w3.org/2000/svg\" width=\"24\" height=\"24\" fill=\"currentColor\" viewBox=\"0 0 16 16\" style=\"flex-shrink: 0;\"><path d=\"M8.982 1.566a1.13 1.13 0 0 0-1.96 0L.165 13.233c-.457.778.091 1.767.98 1.767h13.713c.889 0 1.438-.99.98-1.767L8.982 1.566zM8 5c.535 0 .954.462.9.995l-.35 3.507a.552.552 0 0 1-1.1 0L7.1 5.995A.905.905 0 0 1 8 5zm.002 6a1 1 0 1 1 0 2 1 1 0 0 1 0-2z\"/></svg>".toList

/-- Fixed fragment of the closure card before the icon. -/
def cardPart1 : List Char :=
  "<div class=\"alert alert-warning d-flex align-items-start mb-3\" role=\"alert\" style=\"border-left: 4px solid #ffc107; background-color: #fff3cd; border-color: #ffc107;\"><div style=\"color: #856404; margin-right: 10px; flex-shrink: 0;\">".toList

/-- Fixed fragment of the closure card between the icon and the message. -/
def cardPart2 : List Char :=
  "</div><div style=\"flex: 1; color: #856404; word-wrap: break-word;\"><div style=\"font-weight: bold; margin-bottom: 5px;\">".toList

/-- Fixed fragment of the closure card between the message and the dates. -/
def cardPart3 : List Char := "</div><div style=\"margin-bottom: 5px;\">".toList

/-- Fixed fragment of the closure card before the return date. -/
def cardPart4 : List Char := "</div><div>We will return to regular hours on <strong>".toList

/-- Fixed closing fragment of the closure card. -/
def cardPart5 : List Char := "</strong></div></div></div>".toList

/-- `generateClosureCardHTML` from the source: empty when no closure is
active, otherwise the fixed-layout alert with message, date range and
computed return date. -/
def generateClosureCardHTML (bd : BusinessData) (today : CivilDate) : List Char :=
  match getActiveTemporaryClosure bd today with
  | none => []
  | some tc =>
    let startFormatted := formatDate tc.startDate
    let endFormatted := formatDate tc.endDate
    let returnDateFormatted := formatDateWithDay (getNextDay tc.endDate)
    let message := match tc.message with
      | some m => if m = [] then "Temporarily closed".toList else m
      | none => "Temporarily closed".toList
    cardPart1 ++ warningIcon ++ cardPart2 ++ message ++ cardPart3 ++
      startFormatted ++ " – ".toList ++ endFormatted ++ cardPart4 ++
      returnDateFormatted ++ cardPart5

/-- One row of the hours table. -/
def hoursTableRow (h : DaySchedule) : List Char :=
  let timeText := if h.closed then "Closed".toList
    else jsStr (formatTime12Hour h.«open») ++ " – ".toList ++ jsStr (formatTime12Hour h.close)
  "<tr><td><strong>".toList ++ h.day ++ "</strong></td><td>".toList ++ timeText ++ "</td></tr>".toList

/-- `generateHoursTableHTML` from the source: one row per `DaySchedule`, in
the order of the `hours` list. -/
def generateHoursTableHTML (bd : BusinessData) : List Char :=
  bd.hours.foldl (fun acc h => acc ++ hoursTableRow h) []

/-- `generateAddressBarHTML` from the source. -/
def generateAddressBarHTML (bd : BusinessData) : List Char :=
  bd.address.street ++ " | ".toList ++ bd.address.city ++ ", ".toList ++
    bd.address.region ++ " ".toList ++ bd.address.postalCode ++ " | ".toList ++
    bd.phone.display

/-- The `<table>` opening used while a closure is active: dimmed, with the
"Regular hours (currently closed)" caption. -/
def closedTableOpen : List Char :=
  "<table class=\"business-hours-table\" style=\"opacity: 0.7;\"><caption style=\"caption-side: top; text-align: left; font-size: 0.875em; color: #6c757d; margin-bottom: 0.5rem; font-style: italic;\">Regular hours (currently closed)</caption>".toList

/-- The plain `<table>` opening used when no closure is active. -/
def plainTableOpen : List Char := "<table class=\"business-hours-table\">".toList

/-- The new interior of the hours-table anchor, as built by the replacement
callback in `updateHTMLFile`: optional closure card, then the hours table
(dimmed and captioned during a closure). -/
def hoursTableMid (bd : BusinessData) (today : CivilDate) : List Char :=
  let closureCardHTML := generateClosureCardHTML bd today
  let hoursTableHTML := generateHoursTableHTML bd
  let tempClosure := getActiveTemporaryClosure bd today
  (if closureCardHTML = [] then [] else closureCardHTML) ++
    (if tempClosure.isSome then closedTableOpen ++ hoursTableHTML ++ "</table>".toList
     else plainTableOpen ++ hoursTableHTML ++ "</table>".toList)

/-- The contact-page address block interior. -/
def contactAddressHTML (bd : BusinessData) : List Char :=
  bd.address.street ++ "<br>".toList ++ bd.address.city ++ ", ".toList ++
    bd.address.region ++ " ".toList ++ bd.address.postalCode

/-! ## The document patcher (`updateHTMLFile`) -/

/-- The opening sentinel comment of an anchor. -/
def auOpenC (nm : List Char) : List Char := "<!-- AUTO-UPDATE: ".toList ++ nm ++ " -->".toList

/-- The closing sentinel comment. -/
def eauC : List Char := "<!-- END AUTO-UPDATE -->".toList

/-- `structuredDataRegex`. -/
def structPat : List Atom :=
  [ .lit (auOpenC "Structured Data".toList), .ws
  , .lit "<script type=\"application/ld+json\">".toList
  , .ws, .lazyAny, .ws, .lit "</script>".toList, .ws, .lit eauC ]

/-- `addressBarRegex`. -/
def addressBarPat : List Atom :=
  [ .lit (auOpenC "Address bar".toList), .ws, .lit "<div class=\"address-bar\">".toList
  , .notch '<', .lit "</div>".toList, .ws, .lit eauC ]

/-- `navBrandRegex`. -/
def navBrandPat : List Atom :=
  [ .lit (auOpenC "Navigation brand".toList), .ws, .lit "<a class=\"navbar-brand\"".toList
  , .notchStar '>', .lit ">".toList, .notch '<', .lit "</a>".toList, .ws, .lit eauC ]

/-- `brandHeaderRegex`. -/
def brandHeaderPat : List Atom :=
  [ .lit (auOpenC "Brand header".toList), .ws, .lit "<div class=\"brand\">".toList
  , .notch '<', .lit "</div>".toList, .ws, .lit eauC ]

/-- `hoursTableRegex`. -/
def hoursTablePat : List Atom :=
  [ .lit (auOpenC "Business hours table".toList), .ws, .lazyAny, .ws, .lit eauC ]

/-- `phoneRegex`. -/
def phonePat : List Atom :=
  [ .lit (auOpenC "Contact phone".toList), .ws, .lit "<p>Phone:<br><strong>".toList
  , .notch '<', .lit "</strong></p>".toList, .ws, .lit eauC ]

/-- `addressRegex` (contact-page address block). -/
def contactAddrPat : List Atom :=
  [ .lit (auOpenC "Contact address".toList), .ws, .lit "<p>Address:<br><strong>".toList
  , .notch '<', .lit "<br>".toList, .notch '<', .lit "</strong></p>".toList, .ws, .lit eauC ]

/-- Concatenation of three consecutive matched pieces, used to rebuild a
captured group from the atoms it spans. -/
def grp3 (ps : List (List Char)) (i : Nat) : List Char :=
  ps.getD i [] ++ ps.getD (i + 1) [] ++ ps.getD (i + 2) []

/-- Concatenation of the five pieces of the `navBrandRegex` opening group. -/
def grp5 (ps : List (List Char)) : List Char :=
  ps.getD 0 [] ++ ps.getD 1 [] ++ ps.getD 2 [] ++ ps.getD 3 [] ++ ps.getD 4 []

/-- `updateHTMLFile` from the source: runs the anchor replacements in program
order on the document content and reports whether any anchor matched (the
condition under which the original rewrites the file and reports "Updated").
`isIndex` embeds `filePath.includes('index.html')` and `isContact` embeds
`filePath.includes('contact.html')`. -/
def updateHTMLFile (bd : BusinessData) (today : CivilDate) (isIndex isContact : Bool)
    (content : List Char) : List Char × Bool :=
  let r1 := replaceFirst structPat
    (fun ps => grp3 ps 0 ++ "\n    ".toList ++
      indentTail (structuredDataJSONFor isIndex bd today) ++ "\n    ".toList ++ grp3 ps 6) content
  let r2 := replaceFirst addressBarPat
    (fun ps => grp3 ps 0 ++ generateAddressBarHTML bd ++ grp3 ps 4) r1.1
  let r3 := replaceFirst navBrandPat
    (fun ps => grp5 ps ++ bd.shortName ++ grp3 ps 6) r2.1
  let r4 := replaceFirst brandHeaderPat
    (fun ps => grp3 ps 0 ++ bd.name ++ grp3 ps 4) r3.1
  if isContact then
    let r5 := replaceFirst hoursTablePat
      (fun ps => ps.getD 0 [] ++ hoursTableMid bd today ++ ps.getD 4 []) r4.1
    let r6 := replaceFirst phonePat
      (fun ps => grp3 ps 0 ++ bd.phone.display ++ grp3 ps 4) r5.1
    let r7 := replaceFirst contactAddrPat
      (fun ps => grp3 ps 0 ++ contactAddressHTML bd ++ grp3 ps 6) r6.1
    (r7.1, r1.2 || r2.2 || r3.2 || r4.2 || r5.2 || r6.2 || r7.2)
  else
    (r4.1, r1.2 || r2.2 || r3.2 || r4.2)

/-! ## Document model for the patcher proofs

A managed document is decomposed into inert text segments and anchor
regions.  `renderPage` flattens the decomposition back into the raw
character stream that `updateHTMLFile` operates on; the well-formedness
predicates below pin down exactly the conditions under which the embedded
regular expressions match each region and nothing else. -/

/-- The seven anchor kinds handled by `updateHTMLFile`. -/
inductive AnchorKind where
  | structK
  | addressBarK
  | navBrandK
  | brandHeaderK
  | hoursTableK
  | phoneK
  | contactAddrK
deriving DecidableEq

/-- The region name of each anchor's opening sentinel comment. -/
def nameOf : AnchorKind → List Char
  | .structK => "Structured Data".toList
  | .addressBarK => "Address bar".toList
  | .navBrandK => "Navigation brand".toList
  | .brandHeaderK => "Brand header".toList
  | .hoursTableK => "Business hours table".toList
  | .phoneK => "Contact phone".toList
  | .contactAddrK => "Contact address".toList

/-- The embedded pattern of each anchor kind. -/
def patOf : AnchorKind → List Atom
  | .structK => structPat
  | .addressBarK => addressBarPat
  | .navBrandK => navBrandPat
  | .brandHeaderK => brandHeaderPat
  | .hoursTableK => hoursTablePat
  | .phoneK => phonePat
  | .contactAddrK => contactAddrPat

/-- A document segment: inert text, or an anchor region `g1 ++ mid ++ g3`
where `g1` and `g3` are the texts of the two captured sentinel groups and
`mid` is everything in between. -/
inductive Seg where
  | text (t : List Char)
  | anch (k : AnchorKind) (g1 mid g3 : List Char)

/-- Raw text of a segment. -/
def renderSeg : Seg → List Char
  | .text t => t
  | .anch _ g1 mid g3 => g1 ++ (mid ++ g3)

/-- Raw text of a decomposed document. -/
def renderPage : List Seg → List Char
  | [] => []
  | s :: rest => renderSeg s ++ renderPage rest

/-- Replace the interior of the first anchor of kind `k` (the embedded
regexes are non-global, so only the first match is rewritten). -/
def updAnchor (k : AnchorKind) (nm : List Char) : List Seg → List Seg
  | [] => []
  | .anch k' g1 mid g3 :: rest =>
    if k' = k then .anch k' g1 nm g3 :: rest
    else .anch k' g1 mid g3 :: updAnchor k nm rest
  | .text t :: rest => .text t :: updAnchor k nm rest

/-- Does the page contain an anchor of kind `k`? -/
def hasAnchor (k : AnchorKind) : List Seg → Bool
  | [] => false
  | .anch k' _ _ _ :: rest => k' = k || hasAnchor k rest
  | .text _ :: rest => hasAnchor k rest

/-- Scanner for the two conditions that make a character list safe to skip
over when searching for a sentinel comment: it contains no occurrence of the
two-character sequence `<!`, and it does not end in `<`. -/
def inertB : List Char → Bool
  | [] => true
  | c :: rest =>
    if c = '<' then
      match rest with
      | [] => false
      | d :: _ => if d = '!' then false else inertB rest
    else inertB rest

/-- `true` when the zipped prefixes of the two lists disagree somewhere;
then the first list is not a prefix of any extension of the second. -/
def mismatchZip : List Char → List Char → Bool
  | x :: xs, a :: as_ => x ≠ a || mismatchZip xs as_
  | _, _ => false

/-- The new interior installed into an anchor of kind `k` by
`updateHTMLFile` (the text between the two sentinel groups after one run). -/
def newMidOf (bd : BusinessData) (today : CivilDate) (isIndex : Bool) : AnchorKind → List Char
  | .structK => "\n    ".toList ++ indentTail (structuredDataJSONFor isIndex bd today) ++ "\n    ".toList
  | .addressBarK => generateAddressBarHTML bd
  | .navBrandK => bd.shortName
  | .brandHeaderK => bd.name
  | .hoursTableK => hoursTableMid bd today
  | .phoneK => bd.phone.display
  | .contactAddrK => contactAddressHTML bd

/-- The `<script type="application/ld+json">` literal. -/
def scriptTagL : List Char := "<script type=\"application/ld+json\">".toList

/-- The address-bar opening tag literal. -/
def addressDivL : List Char := "<div class=\"address-bar\">".toList

/-- The navigation-brand opening literal (before the attribute tail). -/
def navATagL : List Char := "<a class=\"navbar-brand\"".toList

/-- The brand-header opening tag literal. -/
def brandDivL : List Char := "<div class=\"brand\">".toList

/-- The contact-phone opening literal. -/
def phonePL : List Char := "<p>Phone:<br><strong>".toList

/-- The contact-address opening literal. -/
def addrPL : List Char := "<p>Address:<br><strong>".toList

/-- The interior shape accepted at an anchor of the given kind: the exact
condition under which the kind's pattern consumes the region and nothing
more.  For the `[^<]+` kinds the interior is non-empty and `<`-free; for the
contact-address kind it is two such parts joined by `<br>`; for the two lazy
kinds it is `<`-free (structured data) or `inertB` (hours table). -/
def wfMid : AnchorKind → List Char → Prop
  | .structK, mid => '<' ∉ mid
  | .hoursTableK, mid => inertB mid = true
  | .contactAddrK, mid =>
    ∃ p1 p2, p1 ≠ [] ∧ p2 ≠ [] ∧ '<' ∉ p1 ∧ '<' ∉ p2 ∧ mid = p1 ++ "<br>".toList ++ p2
  | _, mid => mid ≠ [] ∧ '<' ∉ mid

/-- Shape of the two sentinel groups of an anchor of kind `k`:
`g1` is the opening comment, optional whitespace and the fixed opening tag
(with an attribute tail for the navigation brand); `g3` is the fixed closing
tag, optional whitespace and the closing comment. -/
def wfEnds : AnchorKind → List Char → List Char → Prop
  | .structK, g1, g3 =>
    (∃ w, allWs w = true ∧ g1 = auOpenC (nameOf .structK) ++ w ++ scriptTagL) ∧
    (∃ w, allWs w = true ∧ g3 = "</script>".toList ++ w ++ eauC)
  | .addressBarK, g1, g3 =>
    (∃ w, allWs w = true ∧ g1 = auOpenC (nameOf .addressBarK) ++ w ++ addressDivL) ∧
    (∃ w, allWs w = true ∧ g3 = "</div>".toList ++ w ++ eauC)
  | .navBrandK, g1, g3 =>
    (∃ w attrs, allWs w = true ∧ '>' ∉ attrs ∧ '<' ∉ attrs ∧
      g1 = auOpenC (nameOf .navBrandK) ++ w ++ navATagL ++ attrs ++ ">".toList) ∧
    (∃ w, allWs w = true ∧ g3 = "</a>".toList ++ w ++ eauC)
  | .brandHeaderK, g1, g3 =>
    (∃ w, allWs w = true ∧ g1 = auOpenC (nameOf .brandHeaderK) ++ w ++ brandDivL) ∧
    (∃ w, allWs w = true ∧ g3 = "</div>".toList ++ w ++ eauC)
  | .hoursTableK, g1, g3 => g1 = auOpenC (nameOf .hoursTableK) ∧ g3 = eauC
  | .phoneK, g1, g3 =>
    (∃ w, allWs w = true ∧ g1 = auOpenC (nameOf .phoneK) ++ w ++ phonePL) ∧
    (∃ w, allWs w = true ∧ g3 = "</strong></p>".toList ++ w ++ eauC)
  | .contactAddrK, g1, g3 =>
    (∃ w, allWs w = true ∧ g1 = auOpenC (nameOf .contactAddrK) ++ w ++ addrPL) ∧
    (∃ w, allWs w = true ∧ g3 = "</strong></p>".toList ++ w ++ eauC)

/-- Well-formed segment. -/
def wfSeg : Seg → Prop
  | .text t => inertB t = true
  | .anch k g1 mid g3 => wfEnds k g1 g3 ∧ wfMid k mid

/-- Well-formed page: every segment well-formed. -/
def wfSegs (P : List Seg) : Prop := ∀ s ∈ P, wfSeg s

/-- Segment-level effect of one full `updateHTMLFile` run. -/
def updatePage (bd : BusinessData) (today : CivilDate) (isIndex isContact : Bool)
    (P : List Seg) : List Seg :=
  let p1 := updAnchor .structK (newMidOf bd today isIndex .structK) P
  let p2 := updAnchor .addressBarK (newMidOf bd today isIndex .addressBarK) p1
  let p3 := updAnchor .navBrandK (newMidOf bd today isIndex .navBrandK) p2
  let p4 := updAnchor .brandHeaderK (newMidOf bd today isIndex .brandHeaderK) p3
  if isContact then
    let p5 := updAnchor .hoursTableK (newMidOf bd today isIndex .hoursTableK) p4
    let p6 := updAnchor .phoneK (newMidOf bd today isIndex .phoneK) p5
    updAnchor .contactAddrK (newMidOf bd today isIndex .contactAddrK) p6
  else p4

/-- Whether any anchor processed for this document type is present: the
condition under which `updateHTMLFile` reports the document as updated and
`main` rewrites it to storage. -/
def pageUpdated (isContact : Bool) (P : List Seg) : Bool :=
  hasAnchor .structK P || hasAnchor .addressBarK P || hasAnchor .navBrandK P ||
    hasAnchor .brandHeaderK P ||
    (isContact && (hasAnchor .hoursTableK P || hasAnchor .phoneK P || hasAnchor .contactAddrK P))

/-- Cleanliness of the profile strings that flow into generated fragments:
no `<` in any of them, and the fragments that must be non-empty are
non-empty.  Satisfied by the repository's configuration. -/
def bdClean (bd : BusinessData) : Prop :=
  '<' ∉ bd.name ∧ bd.name ≠ [] ∧
  '<' ∉ bd.shortName ∧ bd.shortName ≠ [] ∧
  '<' ∉ bd.address.street ∧ bd.address.street ≠ [] ∧
  '<' ∉ bd.address.city ∧ '<' ∉ bd.address.region ∧ '<' ∉ bd.address.regionCode ∧
  '<' ∉ bd.address.postalCode ∧ '<' ∉ bd.address.countryCode ∧
  '<' ∉ bd.phone.display ∧ bd.phone.display ≠ [] ∧ '<' ∉ bd.phone.tel ∧
  '<' ∉ bd.coordinates.latitude ∧ '<' ∉ bd.coordinates.longitude ∧
  '<' ∉ bd.url ∧ '<' ∉ bd.priceRange ∧ '<' ∉ bd.description ∧
  '<' ∉ bd.images.defaultImage ∧
  (∀ c, bd.servesCuisine = some c → '<' ∉ c) ∧
  (∀ h ∈ bd.hours, '<' ∉ h.day ∧ '<' ∉ jsStr h.«open» ∧ '<' ∉ jsStr h.close) ∧
  (∀ tc, bd.temporaryClosure = some tc → ∀ m, tc.message = some m → '<' ∉ m)

/-! ## Specification-side definitions for refinement claims -/

/-- First occurrences of keys, in order: the enumeration order of the
JavaScript object keys built by the grouping step. -/
def firstSeen {α : Type} [DecidableEq α] (ks : List α) : List α :=
  ks.foldl (fun acc k => if k ∈ acc then acc else acc ++ [k]) []

/-- The `(open, close)` pair of a schedule entry, as the strings that the
grouping key is built from. -/
def pairOf (h : DaySchedule) : List Char × List Char := (jsStr h.«open», jsStr h.close)

/-- Modelled from the spec (§4.3 step 1): group the schedule entries by
identical `(open, close)` pair among non-closed days, preserving first-seen
order of distinct pairs; each group becomes one opening-hours rule listing
its member day names. -/
def specGroupedRules (hours : List DaySchedule) : List OpeningRule :=
  let opensL := hours.filter (fun h => !h.closed)
  (firstSeen (opensL.map pairOf)).map (fun p =>
    { dayOfWeek := (opensL.filter (fun h => pairOf h = p)).map (fun h => h.day)
      opens := p.1
      closes := p.2 })

/-- Zero-padded `YYYY-MM-DD` shape (four digits, dash, two digits, dash, two
digits), the output format the specification promises for `nextDay`. -/
def isIsoFormat (s : List Char) : Bool :=
  match splitOnChar '-' s with
  | [ys, ms, ds] =>
    ys.length = 4 && ms.length = 2 && ds.length = 2 &&
      ys.all Char.isDigit && ms.all Char.isDigit && ds.all Char.isDigit
  | _ => false

/-! ## Concrete data for witnesses and counterexamples -/

/-- The repository profile with an active temporary closure configured. -/
def christophersClosed : BusinessData :=
  { christophers with
    temporaryClosure :=
      some ⟨"2025-10-01".toList, "2025-10-20".toList, some "Closed for renovations".toList⟩ }

/-- A profile whose week is entirely closed. -/
def allClosedBd : BusinessData :=
  { christophers with
    hours :=
      [ ⟨"Monday".toList, none, none, true⟩
      , ⟨"Tuesday".toList, none, none, true⟩
      , ⟨"Wednesday".toList, none, none, true⟩
      , ⟨"Thursday".toList, none, none, true⟩
      , ⟨"Friday".toList, none, none, true⟩
      , ⟨"Saturday".toList, none, none, true⟩
      , ⟨"Sunday".toList, none, none, true⟩ ] }

/-- A contact document whose address-bar anchor already holds the exact
content the patcher would install: every anchor match produces no change. -/
def upToDateDoc : List Char :=
  "<html><!-- AUTO-UPDATE: Address bar --> <div class=\"address-bar\">".toList ++
    generateAddressBarHTML christophers ++
    "</div> <!-- END AUTO-UPDATE --></html>".toList

/-- Rebuild a slot key from an `(open, close)` pair. -/
def keyOfPair (p : List Char × List Char) : List Char := p.1 ++ '-' :: p.2

/-- Closed form of the `hoursBySlot` accumulation: the distinct keys in
first-seen order, each paired with the days of the entries carrying it, in
order. -/
def slotGroups (done : List DaySchedule) : List (List Char × List (List Char)) :=
  (firstSeen (done.map slotKey)).map (fun k =>
    (k, (done.filter (fun h => slotKey h = k)).map (fun h => h.day)))

/-- The pattern of every anchor starts with the literal opening comment
`auOpenC nm`.  `failAll nm a` says that this literal matches at no position
inside `a`, whatever text follows `a`: the leftmost-match search can skip
over `a` entirely. -/
def failAll (nm : List Char) (a : List Char) : Prop :=
  ∀ u r, u <:+ a → u ≠ [] → stripLit (auOpenC nm) (u ++ r) = none

/-- A contact document decomposition with a hours-table anchor between two
inert text segments, used to instantiate the patcher theorems on concrete
input. -/
def pageW : List Seg :=
  [ Seg.text "<html><body>".toList
  , Seg.anch AnchorKind.hoursTableK (auOpenC (nameOf AnchorKind.hoursTableK))
      "<p>old hours</p>".toList eauC
  , Seg.text "</body></html>".toList ]

/-! ## Basic lemmas -/

theorem stripLit_self (s r : List Char) : stripLit s (s ++ r) = some r := by
  induction s with
  | nil => simp [stripLit]
  | cons c cs ih => simp [stripLit, ih]

theorem stripLit_eq_append (s : List Char) : ∀ t r, stripLit s t = some r → t = s ++ r := by
  induction s with
  | nil => intro t r h; simpa [stripLit] using h
  | cons c cs ih =>
    intro t r h
    cases t with
    | nil => simp [stripLit] at h
    | cons d t' =>
      by_cases hcd : c = d
      · subst hcd
        simp only [stripLit, if_pos rfl] at h
        simpa using ih t' r h
      · simp [stripLit, hcd] at h

theorem splitOnChar_no_sep (sep : Char) (b : List Char) (hb : sep ∉ b) :
    splitOnChar sep b = [b] := by
  induction b with
  | nil => rfl
  | cons c cs ih =>
    have hc : c ≠ sep := fun h => hb (h ▸ List.mem_cons_self c cs)
    have hcs : sep ∉ cs := fun h => hb (List.mem_cons_of_mem c h)
    simp [splitOnChar, hc, ih hcs]

theorem splitOnChar_append (sep : Char) (a b : List Char) (ha : sep ∉ a) :
    splitOnChar sep (a ++ sep :: b) = a :: splitOnChar sep b := by
  induction a with
  | nil => simp [splitOnChar]
  | cons c cs ih =>
    have hc : c ≠ sep := fun h => ha (h ▸ List.mem_cons_self c cs)
    have hcs : sep ∉ cs := fun h => ha (List.mem_cons_of_mem c h)
    have h2 := ih hcs
    simp [splitOnChar, hc, h2]

theorem splitOnChar_pair (sep : Char) (a b : List Char) (ha : sep ∉ a) (hb : sep ∉ b) :
    splitOnChar sep (a ++ sep :: b) = [a, b] := by
  rw [splitOnChar_append sep a b ha, splitOnChar_no_sep sep b hb]

theorem jsParseInt_pad2 : ∀ h < 100, jsParseInt (pad2 h) = some h := by decide

theorem colon_not_mem_pad2 : ∀ h < 100, ':' ∉ pad2 h := by decide

/-- C7: `formatTime12Hour` maps `"00:00"` to `"12:00 am"`, `"12:00"` to
`"12:00 pm"`, `"23:59"` to `"11:59 pm"`, absent input to absent output; and
in general the hour is mapped by `hour % 12` with `0` becoming `12`, with
suffix `"am"` if `hour < 12` else `"pm"`. -/
theorem c7_formatTime12Hour :
    formatTime12Hour (some "00:00".toList) = some "12:00 am".toList ∧
    formatTime12Hour (some "12:00".toList) = some "12:00 pm".toList ∧
    formatTime12Hour (some "23:59".toList) = some "11:59 pm".toList ∧
    formatTime12Hour none = none ∧
    ∀ (h : Nat) (m : List Char), h < 24 → ':' ∉ m →
      formatTime12Hour (some (pad2 h ++ ":".toList ++ m)) =
        some (natToChars (if h % 12 = 0 then 12 else h % 12) ++ ":".toList ++ m ++
          " ".toList ++ (if h < 12 then "am".toList else "pm".toList)) := by
  refine ⟨by decide, by decide, by decide, rfl, ?_⟩
  intro h m hh hm
  have h100 : h < 100 := by omega
  have hsplit : splitOnChar ':' (pad2 h ++ ":".toList ++ m) = [pad2 h, m] := by
    have : pad2 h ++ ":".toList ++ m = pad2 h ++ ':' :: m := by simp
    rw [this, splitOnChar_pair ':' (pad2 h) m (colon_not_mem_pad2 h h100) hm]
  have hne : pad2 h ++ ":".toList ++ m ≠ [] := by simp
  rw [formatTime12Hour, if_neg hne, hsplit]
  simp only [List.headD, jsParseInt_pad2 h h100]
  rcases Nat.lt_or_ge h 12 with h12 | h12
  · have : ¬ 12 ≤ h := by omega
    simp [this, h12]
  · have h12' : ¬ h < 12 := by omega
    simp [h12, h12']

/-- C10: `formatTime12Hour` treats the empty string as an absent input and
returns `null` for it, exactly as for `null`/`undefined` input; every
non-empty input string is parsed and formatted to a present result. -/
theorem c10_formatTime12Hour_empty :
    formatTime12Hour (some "".toList) = none ∧
    formatTime12Hour none = none ∧
    ∀ s : List Char, s ≠ [] → (formatTime12Hour (some s)).isSome = true := by
  refine ⟨rfl, rfl, ?_⟩
  intro s hs
  rw [formatTime12Hour, if_neg hs]
  exact rfl

/-- Witness for C10 at a concrete non-empty input. -/
theorem c10_witness : (formatTime12Hour (some "09:30".toList)).isSome = true :=
  c10_formatTime12Hour_empty.2.2 "09:30".toList (by decide)

/-- Witness for C7's general clause at `h = 9`, `m = "30"`. -/
theorem c7_witness :
    formatTime12Hour (some (pad2 9 ++ ":".toList ++ "30".toList)) =
      some (natToChars (if 9 % 12 = 0 then 12 else 9 % 12) ++ ":".toList ++ "30".toList ++
        " ".toList ++ (if 9 < 12 then "am".toList else "pm".toList)) :=
  c7_formatTime12Hour.2.2.2.2 9 "30".toList (by decide) (by decide)

/-- C9: with a configured closure whose dates parse, the closure record is
returned exactly when `today` lies within `[startDate, endDate]` inclusive;
with no configured closure the result is always absent. -/
theorem c9_getActiveTemporaryClosure :
    (∀ (bd : BusinessData) (today : CivilDate), bd.temporaryClosure = none →
      getActiveTemporaryClosure bd today = none) ∧
    (∀ (bd : BusinessData) (tc : TemporaryClosure) (ds de today : CivilDate),
      bd.temporaryClosure = some tc →
      parseIsoDate tc.startDate = some ds → parseIsoDate tc.endDate = some de →
      (getActiveTemporaryClosure bd today = some tc ↔
        (dateLe ds today = true ∧ dateLe today de = true))) := by
  constructor
  · intro bd today h
    simp [getActiveTemporaryClosure, h]
  · intro bd tc ds de today h hds hde
    simp only [getActiveTemporaryClosure, h, hds, hde]
    by_cases hcond : dateLe ds today = true ∧ dateLe today de = true
    · simp [hcond.1, hcond.2]
    · have hcond' : ¬ ((dateLe ds today && dateLe today de) = true) := by
        rw [Bool.and_eq_true]; exact hcond
      simp only [if_neg hcond']
      constructor
      · intro hfalse; simp at hfalse
      · intro hc; exact absurd hc hcond

/-- Witness for C9 on the repository profile with an active closure window
containing `2025-10-12`. -/
theorem c9_witness :
    getActiveTemporaryClosure christophersClosed ⟨2025, 10, 12⟩ =
      some ⟨"2025-10-01".toList, "2025-10-20".toList, some "Closed for renovations".toList⟩ :=
  (c9_getActiveTemporaryClosure.2 christophersClosed
      ⟨"2025-10-01".toList, "2025-10-20".toList, some "Closed for renovations".toList⟩
      ⟨2025, 10, 1⟩ ⟨2025, 10, 20⟩ ⟨2025, 10, 12⟩ rfl (by decide) (by decide)).mpr
    (by decide)

/-! ## Lemmas about decimal rendering -/

theorem natDigitsCore_acc : ∀ (f n : Nat) (acc : List Char), n < f →
    natDigitsCore f n acc = natDigitsCore f n [] ++ acc := by
  intro f
  induction f with
  | zero => intro n acc h; omega
  | succ f ih =>
    intro n acc h
    by_cases hn : n < 10
    · simp [natDigitsCore, hn]
    · have hdiv : n / 10 < f := by
        have h1 : n / 10 < n := Nat.div_lt_self (by omega) (by omega)
        omega
      simp only [natDigitsCore, if_neg hn]
      rw [ih (n / 10) (Char.ofNat (48 + n % 10) :: acc) hdiv,
        ih (n / 10) [Char.ofNat (48 + n % 10)] hdiv]
      simp

theorem natDigitsCore_irrel : ∀ (f g n : Nat) (acc : List Char), n < f → n < g →
    natDigitsCore f n acc = natDigitsCore g n acc := by
  intro f
  induction f with
  | zero => intro g n acc h; omega
  | succ f ih =>
    intro g n acc hf hg
    cases g with
    | zero => omega
    | succ g =>
      by_cases hn : n < 10
      · simp [natDigitsCore, hn]
      · have h1 : n / 10 < n := Nat.div_lt_self (by omega) (by omega)
        simp only [natDigitsCore, if_neg hn]
        exact ih g (n / 10) _ (by omega) (by omega)

theorem natToChars_step (n : Nat) (h : 10 ≤ n) :
    natToChars n = natToChars (n / 10) ++ [Char.ofNat (48 + n % 10)] := by
  have hn : ¬ n < 10 := by omega
  have h1 : n / 10 < n := Nat.div_lt_self (by omega) (by omega)
  calc natToChars n = natDigitsCore n (n / 10) [Char.ofNat (48 + n % 10)] := by
        rw [show natToChars n = natDigitsCore (n + 1) n [] from rfl]
        simp [natDigitsCore, if_neg hn]
    _ = natDigitsCore (n / 10 + 1) (n / 10) [Char.ofNat (48 + n % 10)] :=
        natDigitsCore_irrel n (n / 10 + 1) (n / 10) _ h1 (by omega)
    _ = natDigitsCore (n / 10 + 1) (n / 10) [] ++ [Char.ofNat (48 + n % 10)] :=
        natDigitsCore_acc (n / 10 + 1) (n / 10) _ (by omega)
    _ = natToChars (n / 10) ++ [Char.ofNat (48 + n % 10)] := rfl

theorem natToChars_small (n : Nat) (h : n < 10) :
    natToChars n = [Char.ofNat (48 + n)] := by
  rw [show natToChars n = natDigitsCore (n + 1) n [] from rfl]
  simp [natDigitsCore, if_pos h, Nat.mod_eq_of_lt h]

theorem digitChar_isDigit : ∀ r < 10, (Char.ofNat (48 + r)).isDigit = true := by decide

theorem natToChars_digits : ∀ n : Nat, ∀ c ∈ natToChars n, c.isDigit = true := by
  intro n
  induction n using Nat.strong_induction_on with
  | _ n ih =>
    by_cases hn : n < 10
    · rw [natToChars_small n hn]
      intro c hc
      simp at hc
      subst hc
      exact digitChar_isDigit n hn
    · rw [natToChars_step n (by omega)]
      intro c hc
      rcases List.mem_append.mp hc with h | h
      · exact ih (n / 10) (Nat.div_lt_self (by omega) (by omega)) c h
      · simp at h
        subst h
        exact digitChar_isDigit (n % 10) (Nat.mod_lt _ (by omega))

theorem natToChars_len4 (y : Nat) (h1 : 1000 ≤ y) (h2 : y ≤ 9999) :
    (natToChars y).length = 4 := by
  rw [natToChars_step y (by omega), natToChars_step (y / 10) (by omega),
    natToChars_step (y / 10 / 10) (by omega),
    natToChars_small (y / 10 / 10 / 10) (by omega)]
  simp

/-! ## Calendar lemmas -/

theorem daysInMonth_pos (y m : Nat) : 1 ≤ daysInMonth y m := by
  unfold daysInMonth
  split
  · split <;> omega
  · split <;> omega

theorem daysInMonth_le31 (y m : Nat) : daysInMonth y m ≤ 31 := by
  unfold daysInMonth
  split
  · split <;> omega
  · split <;> omega

theorem daysBeforeMonth_succ (y m : Nat) (hm : 1 ≤ m) :
    daysBeforeMonth y (m + 1) = daysBeforeMonth y m + daysInMonth y m := by
  unfold daysBeforeMonth
  rw [show m + 1 - 1 = (m - 1) + 1 by omega, List.range_succ, List.foldl_append]
  simp only [List.foldl_cons, List.foldl_nil]
  rw [show m - 1 + 1 = m by omega]

theorem leapsBefore_succ (y : Nat) (hy : 1 ≤ y) :
    leapsBefore (y + 1) = leapsBefore y + (if isLeap y then 1 else 0) := by
  unfold leapsBefore isLeap
  by_cases h4 : y % 4 = 0 <;> by_cases h100 : y % 100 = 0 <;> by_cases h400 : y % 400 = 0 <;>
    simp [h4, h100, h400] <;> omega

theorem daysBeforeMonth_12 (y : Nat) :
    daysBeforeMonth y 12 = 334 + (if isLeap y then 1 else 0) := by
  have hr : List.range 11 = [0, 1, 2, 3, 4, 5, 6, 7, 8, 9, 10] := by decide
  by_cases h : isLeap y <;>
    simp [daysBeforeMonth, hr, daysInMonth, h]

theorem rataDie_next (dt : CivilDate) (hv : validDate dt = true) (hy : 1 ≤ dt.year) :
    rataDie (nextCivilDay dt) = rataDie dt + 1 := by
  obtain ⟨y, m, d⟩ := dt
  simp only [validDate, Bool.and_eq_true, decide_eq_true_eq] at hv
  obtain ⟨⟨⟨hm1, hm2⟩, hd1⟩, hd2⟩ := hv
  try simp only at hm1 hm2 hd1 hd2 hy
  unfold nextCivilDay
  try simp only
  by_cases hlt : d < daysInMonth y m
  · rw [if_pos hlt]
    simp only [rataDie]
    omega
  · rw [if_neg hlt]
    have hd : d = daysInMonth y m := by omega
    by_cases hm12 : m < 12
    · rw [if_pos hm12]
      simp only [rataDie]
      rw [daysBeforeMonth_succ y m hm1]
      have := daysInMonth_pos y m
      omega
    · rw [if_neg hm12]
      have hm : m = 12 := by omega
      subst hm
      have h31 : daysInMonth y 12 = 31 := by simp [daysInMonth]
      simp only [rataDie]
      rw [leapsBefore_succ y hy, daysBeforeMonth_12 y]
      have hdbm1 : daysBeforeMonth (y + 1) 1 = 0 := by simp [daysBeforeMonth]
      rw [hdbm1]
      split <;> omega

theorem validDate_next (dt : CivilDate) (hv : validDate dt = true) :
    validDate (nextCivilDay dt) = true := by
  obtain ⟨y, m, d⟩ := dt
  simp only [validDate, Bool.and_eq_true, decide_eq_true_eq] at hv
  obtain ⟨⟨⟨hm1, hm2⟩, hd1⟩, hd2⟩ := hv
  try simp only at hm1 hm2 hd1 hd2
  unfold nextCivilDay
  try simp only
  by_cases hlt : d < daysInMonth y m
  · rw [if_pos hlt]
    simp only [validDate, Bool.and_eq_true, decide_eq_true_eq]
    refine ⟨⟨⟨hm1, hm2⟩, by omega⟩, by omega⟩
  · rw [if_neg hlt]
    by_cases hm12 : m < 12
    · rw [if_pos hm12]
      simp only [validDate, Bool.and_eq_true, decide_eq_true_eq]
      have := daysInMonth_pos y (m + 1)
      refine ⟨⟨⟨by omega, by omega⟩, by omega⟩, by omega⟩
    · rw [if_neg hm12]
      simp only [validDate, Bool.and_eq_true, decide_eq_true_eq]
      have h31 : daysInMonth (y + 1) 1 = 31 := by simp [daysInMonth]
      refine ⟨⟨⟨by omega, by omega⟩, by omega⟩, by simp [h31]⟩

theorem parseIsoDate_some (s : List Char) (dt : CivilDate)
    (h : parseIsoDate s = some dt) : validDate dt = true := by
  unfold parseIsoDate at h
  rcases hsp : splitOnChar '-' s with _ | ⟨ys, _ | ⟨ms, _ | ⟨ds, _ | _⟩⟩⟩ <;>
    rw [hsp] at h <;> try simp at h
  obtain ⟨-, h2⟩ := h
  rcases hy : parseNatDigits ys with _ | y <;> rw [hy] at h2 <;> try simp at h2
  rcases hm : parseNatDigits ms with _ | m <;> rw [hm] at h2 <;> try simp at h2
  rcases hd : parseNatDigits ds with _ | d <;> rw [hd] at h2 <;> try simp at h2
  rcases hvd : validDate ⟨y, m, d⟩ with _ | _
  · rw [hvd] at h2
    simp at h2
  · rw [hvd] at h2
    simp at h2
    rw [← h2]
    exact hvd

theorem pad2_len2 : ∀ m < 100, (pad2 m).length = 2 := by decide

theorem pad2_digits : ∀ m < 100, ∀ c ∈ pad2 m, c.isDigit = true := by decide

theorem dash_not_mem_digits (l : List Char) (h : ∀ c ∈ l, c.isDigit = true) : '-' ∉ l := by
  intro hmem
  have := h '-' hmem
  simp [Char.isDigit] at this

theorem renderJsDate_iso (dt : CivilDate) (h1 : 1000 ≤ dt.year) (h2 : dt.year ≤ 9999)
    (hm : dt.month < 100) (hd : dt.day < 100) : isIsoFormat (renderJsDate dt) = true := by
  obtain ⟨y, m, d⟩ := dt
  simp only at h1 h2 hm hd
  have hy_dig := natToChars_digits y
  have hm_dig := pad2_digits m hm
  have hd_dig := pad2_digits d hd
  have hns : renderJsDate ⟨y, m, d⟩ = natToChars y ++ '-' :: (pad2 m ++ '-' :: pad2 d) := by
    simp [renderJsDate]
  have hsp : splitOnChar '-' (natToChars y ++ '-' :: (pad2 m ++ '-' :: pad2 d)) =
      [natToChars y, pad2 m, pad2 d] := by
    rw [splitOnChar_append '-' _ _ (dash_not_mem_digits _ hy_dig),
      splitOnChar_pair '-' _ _ (dash_not_mem_digits _ hm_dig) (dash_not_mem_digits _ hd_dig)]
  rw [hns]
  simp only [isIsoFormat, hsp]
  simp only [Bool.and_eq_true, decide_eq_true_eq, List.all_eq_true]
  exact ⟨⟨⟨⟨⟨natToChars_len4 y h1 h2, pad2_len2 m hm⟩, pad2_len2 d hd⟩, hy_dig⟩, hm_dig⟩, hd_dig⟩

/-- C8 (amended): for every valid ISO date whose year lies in `[1000, 9998]`,
`getNextDay` returns the rendering of the next calendar day, in zero-padded
`YYYY-MM-DD` format, where "next calendar day" means: a valid date whose
rata-die day count is exactly one more (so month and year boundaries roll
over correctly); in particular the two example dates.  (For years below
1000 the year is rendered without zero-padding; see the counterexample.) -/
theorem c8_getNextDay :
    getNextDay "2025-12-31".toList = "2026-01-01".toList ∧
    getNextDay "2025-02-28".toList = "2025-03-01".toList ∧
    ∀ (s : List Char) (dt : CivilDate), parseIsoDate s = some dt →
      1000 ≤ dt.year → dt.year ≤ 9998 →
      getNextDay s = renderJsDate (nextCivilDay dt) ∧
      validDate (nextCivilDay dt) = true ∧
      rataDie (nextCivilDay dt) = rataDie dt + 1 ∧
      isIsoFormat (getNextDay s) = true := by
  refine ⟨by decide, by decide, ?_⟩
  intro s dt hparse hy1 hy2
  have hv := parseIsoDate_some s dt hparse
  have hrender : getNextDay s = renderJsDate (nextCivilDay dt) := by
    rw [getNextDay, hparse]
  have hvn := validDate_next dt hv
  have hrd := rataDie_next dt hv (by omega)
  refine ⟨hrender, hvn, hrd, ?_⟩
  rw [hrender]
  have hyn1 : 1000 ≤ (nextCivilDay dt).year := by
    unfold nextCivilDay
    split
    · simpa using hy1
    · split
      · simpa using hy1
      · simp only
        omega
  have hyn2 : (nextCivilDay dt).year ≤ 9999 := by
    unfold nextCivilDay
    split
    · simp only
      omega
    · split
      · simp only
        omega
      · simp only
        omega
  have hvn' := hvn
  simp only [validDate, Bool.and_eq_true, decide_eq_true_eq] at hvn'
  obtain ⟨⟨⟨hm1, hm2⟩, hd1⟩, hd2⟩ := hvn'
  have hdm := daysInMonth_le31 (nextCivilDay dt).year (nextCivilDay dt).month
  exact renderJsDate_iso (nextCivilDay dt) hyn1 hyn2 (by omega) (by omega)

/-- C8 counterexample: `"0999-01-05"` is a valid ISO `YYYY-MM-DD` date, but
the code renders the successor's year without zero-padding: the output
`"999-01-06"` is not in `YYYY-MM-DD` shape, refuting the claim as stated. -/
theorem c8_counterexample :
    isIsoFormat "0999-01-05".toList = true ∧
    getNextDay "0999-01-05".toList = "999-01-06".toList ∧
    isIsoFormat (getNextDay "0999-01-05".toList) = false := by
  refine ⟨by decide, by decide, by decide⟩

/-- Witness for C8's general clause at `"2025-06-30"` (a month rollover). -/
theorem c8_witness :
    getNextDay "2025-06-30".toList = renderJsDate (nextCivilDay ⟨2025, 6, 30⟩) ∧
    validDate (nextCivilDay ⟨2025, 6, 30⟩) = true ∧
    rataDie (nextCivilDay ⟨2025, 6, 30⟩) = rataDie ⟨2025, 6, 30⟩ + 1 ∧
    isIsoFormat (getNextDay "2025-06-30".toList) = true :=
  c8_getNextDay.2.2 "2025-06-30".toList ⟨2025, 6, 30⟩ (by decide) (by decide) (by decide)

/-! ## Grouping lemmas (C5) -/

theorem firstSeen_mem {α : Type} [DecidableEq α] :
    ∀ (ks : List α) (acc : List α) (x : α),
      (x ∈ ks.foldl (fun acc k => if k ∈ acc then acc else acc ++ [k]) acc) ↔
        (x ∈ acc ∨ x ∈ ks) := by
  intro ks
  induction ks with
  | nil => intro acc x; simp
  | cons k t ih =>
    intro acc x
    simp only [List.foldl_cons]
    by_cases hk : k ∈ acc
    · rw [if_pos hk, ih]
      constructor
      · rintro (h | h)
        · exact Or.inl h
        · exact Or.inr (List.mem_cons_of_mem k h)
      · rintro (h | h)
        · exact Or.inl h
        · rcases List.mem_cons.mp h with rfl | h
          · exact Or.inl hk
          · exact Or.inr h
    · rw [if_neg hk, ih]
      simp only [List.mem_append, List.mem_singleton, List.mem_cons]
      tauto

theorem firstSeen_mem' {α : Type} [DecidableEq α] (ks : List α) (x : α) :
    x ∈ firstSeen ks ↔ x ∈ ks := by
  rw [firstSeen, firstSeen_mem ks [] x]
  simp

theorem firstSeen_nodup_aux {α : Type} [DecidableEq α] :
    ∀ (ks acc : List α), acc.Nodup →
      (ks.foldl (fun acc k => if k ∈ acc then acc else acc ++ [k]) acc).Nodup := by
  intro ks
  induction ks with
  | nil => intro acc h; simpa using h
  | cons k t ih =>
    intro acc h
    simp only [List.foldl_cons]
    by_cases hk : k ∈ acc
    · rw [if_pos hk]; exact ih acc h
    · rw [if_neg hk]
      refine ih _ ?_
      simpa [List.nodup_append, h] using hk

theorem firstSeen_nodup {α : Type} [DecidableEq α] (ks : List α) : (firstSeen ks).Nodup :=
  firstSeen_nodup_aux ks [] List.nodup_nil

theorem pushKey_map (L : List (List Char)) (g : List Char → List (List Char))
    (k : List Char) (d : List Char) (hnd : L.Nodup) :
    pushKey (L.map (fun k' => (k', g k'))) k d =
      if k ∈ L then L.map (fun k' => (k', g k' ++ if k' = k then [d] else []))
      else L.map (fun k' => (k', g k')) ++ [(k, [d])] := by
  induction L with
  | nil => simp [pushKey]
  | cons k0 t ih =>
    obtain ⟨hk0t, htnd⟩ := List.nodup_cons.mp hnd
    simp only [List.map_cons, pushKey]
    by_cases hk0 : k0 = k
    · subst hk0
      rw [if_pos rfl, if_pos (List.mem_cons_self k0 t)]
      simp only [List.map_cons, if_pos rfl]
      congr 1
      apply List.map_congr_left
      intro a ha
      have : ¬ a = k0 := fun hc => hk0t (hc ▸ ha)
      simp [this]
    · rw [if_neg hk0, ih htnd]
      by_cases hmem : k ∈ t
      · have hmem' : k ∈ k0 :: t := List.mem_cons_of_mem _ hmem
        rw [if_pos hmem, if_pos hmem']
        simp [hk0]
      · have hno : k ∉ k0 :: t := by
          intro hc
          rcases List.mem_cons.mp hc with hc | hc
          · exact hk0 hc.symm
          · exact hmem hc
        rw [if_neg hmem, if_neg hno]
        simp

theorem firstSeen_append_mem {α : Type} [DecidableEq α] (ks : List α) (k : α)
    (hm : k ∈ firstSeen ks) : firstSeen (ks ++ [k]) = firstSeen ks := by
  unfold firstSeen at hm ⊢
  rw [List.foldl_append]
  simp only [List.foldl_cons, List.foldl_nil]
  rw [if_pos hm]

theorem firstSeen_append_not_mem {α : Type} [DecidableEq α] (ks : List α) (k : α)
    (hm : k ∉ firstSeen ks) : firstSeen (ks ++ [k]) = firstSeen ks ++ [k] := by
  unfold firstSeen at hm ⊢
  rw [List.foldl_append]
  simp only [List.foldl_cons, List.foldl_nil]
  rw [if_neg hm]

theorem pushKey_slotGroups (done : List DaySchedule) (h : DaySchedule) :
    pushKey (slotGroups done) (slotKey h) h.day = slotGroups (done ++ [h]) := by
  unfold slotGroups
  rw [pushKey_map _ _ _ _ (firstSeen_nodup _), List.map_append]
  simp only [List.map_cons, List.map_nil]
  by_cases hmem : slotKey h ∈ firstSeen (done.map slotKey)
  · rw [if_pos hmem, firstSeen_append_mem _ _ hmem]
    apply List.map_congr_left
    intro k hk
    have hfk : (done ++ [h]).filter (fun h' => slotKey h' = k) =
        done.filter (fun h' => slotKey h' = k) ++ if slotKey h = k then [h] else [] := by
      rw [List.filter_append]
      congr 1
      by_cases he : slotKey h = k <;> simp [he]
    rw [hfk, List.map_append]
    congr 1
    by_cases he : k = slotKey h
    · subst he
      simp
    · have : ¬ slotKey h = k := fun hc => he hc.symm
      simp [this, he]
  · rw [if_neg hmem, firstSeen_append_not_mem _ _ hmem, List.map_append]
    congr 1
    · apply List.map_congr_left
      intro k hk
      have hne : ¬ slotKey h = k := by
        intro hc
        exact hmem (hc ▸ hk)
      rw [List.filter_append]
      simp [hne]
    · have hnod : done.filter (fun h' => slotKey h' = slotKey h) = [] := by
        rw [List.filter_eq_nil_iff]
        intro a ha
        intro hc
        apply hmem
        rw [firstSeen_mem']
        simp only [List.mem_map]
        exact ⟨a, ha, by simpa using hc⟩
      simp only [List.map_cons, List.map_nil]
      rw [List.filter_append, hnod]
      simp

theorem hoursBySlot_eq_slotGroups :
    ∀ (l : List DaySchedule) (done : List DaySchedule),
      l.foldl (fun acc h => if h.closed then acc else pushKey acc (slotKey h) h.day)
          (slotGroups done) =
        slotGroups (done ++ l.filter (fun h => !h.closed)) := by
  intro l
  induction l with
  | nil => intro done; simp
  | cons h t ih =>
    intro done
    simp only [List.foldl_cons]
    rcases hc : h.closed with _ | _
    · rw [if_neg (by simp [hc]), pushKey_slotGroups done h, ih (done ++ [h])]
      have : List.filter (fun h => !h.closed) (h :: t) = h :: List.filter (fun h => !h.closed) t := by
        simp [List.filter_cons, hc]
      rw [this, List.append_assoc]
      rfl
    · rw [if_pos (by simp [hc]), ih done]
      have : List.filter (fun h => !h.closed) (h :: t) = List.filter (fun h => !h.closed) t := by
        simp [List.filter_cons, hc]
      rw [this]

theorem hoursBySlot_closed_form (hours : List DaySchedule) :
    hoursBySlot hours = slotGroups (hours.filter (fun h => !h.closed)) := by
  have h0 : slotGroups [] = [] := rfl
  have := hoursBySlot_eq_slotGroups hours []
  rw [h0] at this
  simpa [hoursBySlot] using this

theorem firstSeen_map_inj_aux {α β : Type} [DecidableEq α] [DecidableEq β] (f : α → β) :
    ∀ (ks acc : List α),
      (∀ a b, (a ∈ ks ∨ a ∈ acc) → (b ∈ ks ∨ b ∈ acc) → f a = f b → a = b) →
      (ks.map f).foldl (fun acc k => if k ∈ acc then acc else acc ++ [k]) (acc.map f) =
        (ks.foldl (fun acc k => if k ∈ acc then acc else acc ++ [k]) acc).map f := by
  intro ks
  induction ks with
  | nil => intro acc _; simp
  | cons k t ih =>
    intro acc hinj
    simp only [List.map_cons, List.foldl_cons]
    by_cases hk : k ∈ acc
    · rw [if_pos hk, if_pos (List.mem_map_of_mem f hk)]
      exact ih acc (fun a b ha hb => hinj a b
        (ha.imp (List.mem_cons_of_mem k) id) (hb.imp (List.mem_cons_of_mem k) id))
    · have hkf : f k ∉ acc.map f := by
        intro hc
        rcases List.mem_map.mp hc with ⟨a, ha, hfa⟩
        have : a = k := hinj a k (Or.inr ha) (Or.inl (List.mem_cons_self k t)) hfa
        exact hk (this ▸ ha)
      rw [if_neg hk, if_neg hkf]
      have : (acc ++ [k]).map f = acc.map f ++ [f k] := by simp
      rw [← this]
      exact ih (acc ++ [k]) (fun a b ha hb => hinj a b
        (by rcases ha with ha | ha
            · exact Or.inl (List.mem_cons_of_mem k ha)
            · rcases List.mem_append.mp ha with ha | ha
              · exact Or.inr ha
              · simp at ha
                exact Or.inl (ha ▸ List.mem_cons_self k t))
        (by rcases hb with hb | hb
            · exact Or.inl (List.mem_cons_of_mem k hb)
            · rcases List.mem_append.mp hb with hb | hb
              · exact Or.inr hb
              · simp at hb
                exact Or.inl (hb ▸ List.mem_cons_self k t)))

theorem firstSeen_map_inj {α β : Type} [DecidableEq α] [DecidableEq β] (f : α → β)
    (ks : List α) (hinj : ∀ a b, a ∈ ks → b ∈ ks → f a = f b → a = b) :
    firstSeen (ks.map f) = (firstSeen ks).map f := by
  have := firstSeen_map_inj_aux f ks []
    (fun a b ha hb => hinj a b (by tauto) (by tauto))
  simpa [firstSeen] using this

theorem slotKey_eq_keyOfPair (h : DaySchedule) : slotKey h = keyOfPair (pairOf h) := by
  simp [slotKey, keyOfPair, pairOf]

theorem keyOfPair_inj (p q : List Char × List Char)
    (hp1 : '-' ∉ p.1) (hp2 : '-' ∉ p.2) (hq1 : '-' ∉ q.1) (hq2 : '-' ∉ q.2)
    (h : keyOfPair p = keyOfPair q) : p = q := by
  have hsp := congrArg (splitOnChar '-') h
  rw [keyOfPair, keyOfPair, splitOnChar_pair '-' _ _ hp1 hp2,
    splitOnChar_pair '-' _ _ hq1 hq2] at hsp
  simp at hsp
  obtain ⟨p1, p2⟩ := p
  obtain ⟨q1, q2⟩ := q
  simp only at hsp
  rw [hsp.1, hsp.2]

theorem openingHoursRules_eq_spec (hours : List DaySchedule)
    (hc : ∀ h ∈ hours, '-' ∉ jsStr h.«open» ∧ '-' ∉ jsStr h.close) :
    openingHoursRules hours = specGroupedRules hours := by
  have hcO : ∀ h ∈ hours.filter (fun h => !h.closed),
      '-' ∉ jsStr h.«open» ∧ '-' ∉ jsStr h.close :=
    fun h hh => hc h (List.mem_of_mem_filter hh)
  have hinj : ∀ a b, a ∈ (hours.filter (fun h => !h.closed)).map pairOf →
      b ∈ (hours.filter (fun h => !h.closed)).map pairOf → keyOfPair a = keyOfPair b → a = b := by
    intro a b ha hb hab
    obtain ⟨ha', hma, rfl⟩ := List.mem_map.mp ha
    obtain ⟨hb', hmb, rfl⟩ := List.mem_map.mp hb
    exact keyOfPair_inj _ _ (hcO ha' hma).1 (hcO ha' hma).2 (hcO hb' hmb).1 (hcO hb' hmb).2 hab
  unfold openingHoursRules specGroupedRules
  rw [hoursBySlot_closed_form]
  unfold slotGroups
  rw [List.map_map]
  have hkeys : (hours.filter (fun h => !h.closed)).map slotKey =
      ((hours.filter (fun h => !h.closed)).map pairOf).map keyOfPair := by
    rw [List.map_map]
    apply List.map_congr_left
    intro h _
    exact slotKey_eq_keyOfPair h
  rw [hkeys, firstSeen_map_inj keyOfPair _ hinj, List.map_map]
  apply List.map_congr_left
  intro p hp
  have hpm : p ∈ (hours.filter (fun h => !h.closed)).map pairOf := (firstSeen_mem' _ _).mp hp
  obtain ⟨hH, hHm, hpeq⟩ := List.mem_map.mp hpm
  have hp1 : '-' ∉ p.1 := hpeq ▸ (hcO hH hHm).1
  have hp2 : '-' ∉ p.2 := hpeq ▸ (hcO hH hHm).2
  have hsplit : splitOnChar '-' (keyOfPair p) = [p.1, p.2] := by
    rw [keyOfPair, splitOnChar_pair '-' _ _ hp1 hp2]
  simp only [Function.comp]
  have hfilter : (hours.filter (fun h => !h.closed)).filter
        (fun h => slotKey h = keyOfPair p) =
      (hours.filter (fun h => !h.closed)).filter (fun h => pairOf h = p) := by
    apply List.filter_congr
    intro a ha
    rw [slotKey_eq_keyOfPair a]
    by_cases he : pairOf a = p
    · simp [he]
    · have : keyOfPair (pairOf a) ≠ keyOfPair p := by
        intro hc'
        exact he (keyOfPair_inj _ _ (hcO a ha).1 (hcO a ha).2 hp1 hp2 hc')
      simp [this, he]
  rw [hfilter, hsplit]
  rfl

/-- C5: `generateStructuredData` groups the schedule entries by identical
`(open, close)` pair among non-closed days, preserving first-seen order of
distinct pairs, each group becoming one rule listing its member day names
(shown as equality with the specification-side grouping, for schedules whose
time strings contain no dash, as `"HH:MM"` times never do); and on the
repository profile it produces exactly the two rules Tuesday–Friday
09:30–17:00 and Saturday 09:00–17:00, in that order. -/
theorem c5_grouping :
    (∀ hours : List DaySchedule,
      (∀ h ∈ hours, '-' ∉ jsStr h.«open» ∧ '-' ∉ jsStr h.close) →
      openingHoursRules hours = specGroupedRules hours) ∧
    openingHoursRules christophers.hours =
      [ ⟨["Tuesday".toList, "Wednesday".toList, "Thursday".toList, "Friday".toList],
          "09:30".toList, "17:00".toList⟩
      , ⟨["Saturday".toList], "09:00".toList, "17:00".toList⟩ ] ∧
    (generateStructuredData christophers ⟨2025, 10, 12⟩ none none).openingHoursSpecification =
      some
        [ ⟨["Tuesday".toList, "Wednesday".toList, "Thursday".toList, "Friday".toList],
            "09:30".toList, "17:00".toList⟩
        , ⟨["Saturday".toList], "09:00".toList, "17:00".toList⟩ ] := by
  refine ⟨openingHoursRules_eq_spec, by decide, by decide⟩

/-- Witness for C5's general clause on the repository schedule. -/
theorem c5_witness :
    openingHoursRules christophers.hours = specGroupedRules christophers.hours :=
  c5_grouping.1 christophers.hours (by decide)

/-! ## Closure suppression (C1) and the all-closed week (C6) -/

theorem openingHoursRules_all_closed (hours : List DaySchedule)
    (h : ∀ d ∈ hours, d.closed = true) : openingHoursRules hours = [] := by
  rw [openingHoursRules, hoursBySlot_closed_form]
  have : hours.filter (fun h => !h.closed) = [] := by
    rw [List.filter_eq_nil_iff]
    intro a ha
    simp [h a ha]
  rw [this]
  rfl

/-- C6 (amended): when every day of the week is marked closed (and no
temporary closure is active), the grouping step yields zero opening-hours
rules and `generateStructuredData` omits the `openingHoursSpecification`
property from its output entirely (the record carries no rules; this is a
well-defined result, not an error). -/
theorem c6_all_closed :
    ∀ (bd : BusinessData) (today : CivilDate) (im de : Option (List Char)),
      (∀ d ∈ bd.hours, d.closed = true) →
      openingHoursRules bd.hours = [] ∧
      (generateStructuredData bd today im de).openingHoursSpecification = none := by
  intro bd today im de h
  refine ⟨openingHoursRules_all_closed bd.hours h, ?_⟩
  rw [generateStructuredData]
  rcases htc : (getActiveTemporaryClosure bd today).isSome with _ | _ <;>
    simp [htc, openingHoursRules_all_closed bd.hours h]

/-- C6 counterexample: on an all-closed profile the structured-data record
does not render the rules as an empty list: the property is absent
(`none`), not present-and-empty (`some []`), refuting the claim as stated. -/
theorem c6_counterexample :
    (generateStructuredData allClosedBd ⟨2025, 10, 12⟩ none none).openingHoursSpecification
        = none ∧
    (generateStructuredData allClosedBd ⟨2025, 10, 12⟩ none none).openingHoursSpecification
        ≠ some [] := by
  refine ⟨by decide, by decide⟩

/-- Witness for C6 on the all-closed profile. -/
theorem c6_witness :
    openingHoursRules allClosedBd.hours = [] ∧
    (generateStructuredData allClosedBd ⟨2025, 10, 12⟩ none none).openingHoursSpecification
      = none :=
  c6_all_closed allClosedBd ⟨2025, 10, 12⟩ none none (by decide)

/-- C1: while a temporary closure window contains `today`, the structured
data built by `generateStructuredData` carries no opening-hours rules at all,
and the interior the patcher installs at the contact page's hours-table
anchor is the closure card followed by the hours table wrapped in the dimmed
`<table>` element whose caption reads "Regular hours (currently closed)". -/
theorem c1_closure_suppression :
    ∀ (bd : BusinessData) (today : CivilDate) (im de : Option (List Char)),
      (getActiveTemporaryClosure bd today).isSome = true →
      (generateStructuredData bd today im de).openingHoursSpecification = none ∧
      hoursTableMid bd today =
        generateClosureCardHTML bd today ++
          (closedTableOpen ++ generateHoursTableHTML bd ++ "</table>".toList) ∧
      ("Regular hours (currently closed)".toList <:+: closedTableOpen) := by
  intro bd today im de h
  obtain ⟨tc, htc⟩ := Option.isSome_iff_exists.mp h
  refine ⟨?_, ?_, ?_⟩
  · rw [generateStructuredData]
    simp [h]
  · have hcardne : generateClosureCardHTML bd today ≠ [] := by
      rw [generateClosureCardHTML, htc]
      simp only
      intro hc
      have h1 : cardPart1 ≠ [] := by decide
      simp only [List.append_eq_nil] at hc
      exact h1 (by tauto)
    rw [hoursTableMid]
    simp [htc, hcardne]
  · decide

/-- Witness for C1 on the repository profile with an active closure. -/
theorem c1_witness :
    (generateStructuredData christophersClosed ⟨2025, 10, 12⟩ none none).openingHoursSpecification
        = none ∧
    hoursTableMid christophersClosed ⟨2025, 10, 12⟩ =
      generateClosureCardHTML christophersClosed ⟨2025, 10, 12⟩ ++
        (closedTableOpen ++ generateHoursTableHTML christophersClosed ++ "</table>".toList) ∧
    ("Regular hours (currently closed)".toList <:+: closedTableOpen) :=
  c1_closure_suppression christophersClosed ⟨2025, 10, 12⟩ none none (by decide)

/-! ## Skip lemmas: the sentinel literal matches nowhere inside safe text -/

theorem auOpenC_eq (nm : List Char) :
    auOpenC nm = '<' :: '!' :: ("-- AUTO-UPDATE: ".toList ++ nm ++ " -->".toList) := rfl

theorem inertB_tail (x : Char) (a : List Char) (h : inertB (x :: a) = true) :
    inertB a = true := by
  cases a with
  | nil => rfl
  | cons d t =>
    by_cases hx : x = '<'
    · subst hx
      by_cases hd : d = '!'
      · subst hd
        simp [inertB] at h
      · simpa [inertB, hd] using h
    · simpa [inertB, hx] using h

theorem inertB_suffix : ∀ (a u : List Char), u <:+ a → inertB a = true → inertB u = true := by
  intro a
  induction a with
  | nil =>
    intro u hu _
    rw [List.suffix_nil.mp hu]
    rfl
  | cons x a' ih =>
    intro u hu h
    rcases List.suffix_cons_iff.mp hu with rfl | hu'
    · exact h
    · exact ih u hu' (inertB_tail x a' h)

theorem failAll_inert (nm a : List Char) (h : inertB a = true) : failAll nm a := by
  intro u r hsuf hne
  have hu : inertB u = true := inertB_suffix a u hsuf h
  cases u with
  | nil => exact absurd rfl hne
  | cons c u' =>
    rw [auOpenC_eq]
    by_cases hc : c = '<'
    · subst hc
      cases u' with
      | nil => simp [inertB] at hu
      | cons d u'' =>
        by_cases hd : d = '!'
        · subst hd
          simp [inertB] at hu
        · have hd' : ¬ ('!' = d) := fun he => hd he.symm
          simp [stripLit, hd']
    · have hc' : ¬ ('<' = c) := fun he => hc he.symm
      simp [stripLit, hc']

theorem noLt_inertB : ∀ (a : List Char), '<' ∉ a → inertB a = true := by
  intro a
  induction a with
  | nil => intro _; rfl
  | cons c t ih =>
    intro h
    have hc : c ≠ '<' := fun hc => h (hc ▸ List.mem_cons_self c t)
    have ht : '<' ∉ t := fun hm => h (List.mem_cons_of_mem c hm)
    simp [inertB, hc, ih ht]

theorem failAll_append (nm a b : List Char) (ha : failAll nm a) (hb : failAll nm b) :
    failAll nm (a ++ b) := by
  intro u r hsuf hne
  obtain ⟨p, hp⟩ := hsuf
  rcases List.append_eq_append_iff.mp hp.symm with ⟨x, hx1, hx2⟩ | ⟨x, hx1, hx2⟩
  · exact hb u r ⟨x, hx2.symm⟩ hne
  · rcases eq_or_ne x [] with rfl | hxne
    · simp at hx2
      exact hb u r (hx2 ▸ List.suffix_refl b) hne
    · rw [hx2, List.append_assoc]
      exact ha x (b ++ r) ⟨p, hx1.symm⟩ hxne

theorem stripLit_mismatchZip : ∀ (x a : List Char), mismatchZip x a = true →
    ∀ r, stripLit x (a ++ r) = none := by
  intro x
  induction x with
  | nil => intro a h; simp [mismatchZip] at h
  | cons c t ih =>
    intro a h r
    cases a with
    | nil => simp [mismatchZip] at h
    | cons d a' =>
      simp only [mismatchZip, Bool.or_eq_true] at h
      rcases h with h | h
      · have : c ≠ d := by simpa using h
        simp [stripLit, this]
      · by_cases hcd : c = d
        · subst hcd
          simp [stripLit, ih a' h r]
        · simp [stripLit, hcd]

theorem failAll_of_mismatch (nm a : List Char) (hm : mismatchZip (auOpenC nm) a = true)
    (ht : ∀ c ∈ a.drop 1, c ≠ '<') : failAll nm a := by
  intro u r hsuf hne
  cases a with
  | nil =>
    rw [List.suffix_nil.mp hsuf] at hne
    exact absurd rfl hne
  | cons x t =>
    rcases List.suffix_cons_iff.mp hsuf with rfl | hu'
    · exact stripLit_mismatchZip (auOpenC nm) (x :: t) hm r
    · cases u with
      | nil => exact absurd rfl hne
      | cons c u'' =>
        have hc : c ≠ '<' := ht c (hu'.subset (List.mem_cons_self c u''))
        have hc' : ¬ ('<' = c) := fun he => hc he.symm
        rw [auOpenC_eq]
        simp [stripLit, hc']

theorem findMatch_skip (nm : List Char) (pr : List Atom) :
    ∀ (a r : List Char), failAll nm a →
      findMatch (.lit (auOpenC nm) :: pr) (a ++ r) =
        (findMatch (.lit (auOpenC nm) :: pr) r).map (fun x => (a ++ x.1, x.2.1, x.2.2)) := by
  intro a
  induction a with
  | nil =>
    intro r _
    rcases h : findMatch (.lit (auOpenC nm) :: pr) r with _ | ⟨p, ps, rr⟩ <;> simp [h]
  | cons c a' ih =>
    intro r ha
    have hfail : stripLit (auOpenC nm) ((c :: a') ++ r) = none :=
      ha (c :: a') r (List.suffix_refl _) (by simp)
    have ha' : failAll nm a' := by
      intro u rr hsuf hne
      exact ha u rr (hsuf.trans (List.suffix_cons c a')) hne
    have hstep : findMatch (.lit (auOpenC nm) :: pr) ((c :: a') ++ r) =
        (findMatch (.lit (auOpenC nm) :: pr) (a' ++ r)).map
          (fun x => (c :: x.1, x.2.1, x.2.2)) := by
      rw [List.cons_append, findMatch]
      rw [show tryMatch (.lit (auOpenC nm) :: pr) (c :: (a' ++ r)) = none from by
        rw [tryMatch]
        rw [show ((c :: a') ++ r : List Char) = c :: (a' ++ r) from rfl] at hfail
        rw [hfail]]
    rw [hstep, ih r ha']
    rcases h : findMatch (.lit (auOpenC nm) :: pr) r with _ | ⟨p, ps, rr⟩ <;> simp [h]

theorem replaceFirst_skip (nm : List Char) (pr : List Atom)
    (cb : List (List Char) → List Char) (a r : List Char) (ha : failAll nm a) :
    replaceFirst (.lit (auOpenC nm) :: pr) cb (a ++ r) =
      (a ++ (replaceFirst (.lit (auOpenC nm) :: pr) cb r).1,
        (replaceFirst (.lit (auOpenC nm) :: pr) cb r).2) := by
  unfold replaceFirst
  rw [findMatch_skip nm pr a r ha]
  rcases h : findMatch (.lit (auOpenC nm) :: pr) r with _ | ⟨p, ps, rr⟩ <;> simp [h]

/-! ## Region-matching lemmas -/

theorem tryMatch_lit (s : List Char) (rest : List Atom) (cs : List Char) :
    tryMatch (.lit s :: rest) (s ++ cs) =
      (tryMatch rest cs).map (fun x => (s :: x.1, x.2)) := by
  rw [tryMatch, stripLit_self]

theorem spanList_ws_append (w cs : List Char) (hw : allWs w = true)
    (hcs : ∀ c, cs.head? = some c → isWsChar c = false) :
    spanList isWsChar (w ++ cs) = (w, cs) := by
  induction w with
  | nil =>
    cases cs with
    | nil => rfl
    | cons c cs' =>
      have := hcs c rfl
      simp [spanList, this]
  | cons x w' ih =>
    have hx : isWsChar x = true := by
      have := (List.all_eq_true.mp hw) x (List.mem_cons_self x w')
      simpa using this
    have hw' : allWs w' = true := by
      rw [allWs] at hw ⊢
      simp only [List.all_cons, Bool.and_eq_true] at hw
      exact hw.2
    simp [spanList, hx, ih hw']

theorem tryMatch_ws (w cs : List Char) (rest : List Atom) (hw : allWs w = true)
    (hcs : ∀ c, cs.head? = some c → isWsChar c = false) :
    tryMatch (.ws :: rest) (w ++ cs) =
      (tryMatch rest cs).map (fun x => (w :: x.1, x.2)) := by
  rw [tryMatch]
  rw [spanList_ws_append w cs hw hcs]

theorem spanList_notch_append (c : Char) (m cs : List Char) (hm : c ∉ m)
    (hcs : cs.head? = some c) :
    spanList (fun d => d ≠ c) (m ++ cs) = (m, cs) := by
  induction m with
  | nil =>
    cases cs with
    | nil => simp at hcs
    | cons x cs' =>
      have : x = c := by simpa using hcs
      subst this
      simp [spanList]
  | cons x m' ih =>
    have hx : x ≠ c := fun h => hm (h ▸ List.mem_cons_self x m')
    have hm' : c ∉ m' := fun h => hm (List.mem_cons_of_mem x h)
    have hpx : (decide (x ≠ c)) = true := by simpa using hx
    rw [List.cons_append, spanList]
    simp only [hpx, if_pos]
    rw [ih hm']

theorem tryMatch_notch (c : Char) (m cs : List Char) (rest : List Atom)
    (hne : m ≠ []) (hm : c ∉ m) (hcs : cs.head? = some c) :
    tryMatch (.notch c :: rest) (m ++ cs) =
      (tryMatch rest cs).map (fun x => (m :: x.1, x.2)) := by
  rw [tryMatch]
  rw [spanList_notch_append c m cs hm hcs]
  simp [hne]

theorem tryMatch_notchStar (c : Char) (m cs : List Char) (rest : List Atom)
    (hm : c ∉ m) (hcs : cs.head? = some c) :
    tryMatch (.notchStar c :: rest) (m ++ cs) =
      (tryMatch rest cs).map (fun x => (m :: x.1, x.2)) := by
  rw [tryMatch]
  rw [spanList_notch_append c m cs hm hcs]

theorem tryMatch_nil_atoms (cs : List Char) : tryMatch [] cs = some ([], cs) := rfl

theorem lazyLoop_cont_some (cont : List Char → Option (List (List Char) × List Char))
    (cs : List Char) (ps : List (List Char)) (r : List Char) (h : cont cs = some (ps, r)) :
    lazyLoop cont cs = some ([] :: ps, r) := by
  cases cs <;> simp [lazyLoop, h]

theorem lazy_spec (cont : List Char → Option (List (List Char) × List Char))
    (K : List Char) (F : List Char → List (List Char)) (r₀ : List Char) :
    ∀ (m : List Char),
      (∀ b, b <:+ m → allWs b = true → cont (b ++ K) = some (F b, r₀)) →
      (∀ b, b <:+ m → allWs b = false → cont (b ++ K) = none) →
      ∃ i tw, m = i ++ tw ∧ allWs tw = true ∧
        lazyLoop cont (m ++ K) = some (i :: F tw, r₀) := by
  intro m
  induction m with
  | nil =>
    intro hA _
    refine ⟨[], [], rfl, rfl, ?_⟩
    have := hA [] (List.suffix_refl []) rfl
    simpa using lazyLoop_cont_some cont K (F []) r₀ (by simpa using this)
  | cons c m' ih =>
    intro hA hB
    rcases hws : allWs (c :: m') with _ | _
    · have hfail : cont ((c :: m') ++ K) = none := hB (c :: m') (List.suffix_refl _) hws
      have ihA : ∀ b, b <:+ m' → allWs b = true → cont (b ++ K) = some (F b, r₀) :=
        fun b hb => hA b (hb.trans (List.suffix_cons c m'))
      have ihB : ∀ b, b <:+ m' → allWs b = false → cont (b ++ K) = none :=
        fun b hb => hB b (hb.trans (List.suffix_cons c m'))
      obtain ⟨i, tw, heq, htw, hloop⟩ := ih ihA ihB
      refine ⟨c :: i, tw, by rw [heq]; rfl, htw, ?_⟩
      rw [List.cons_append, lazyLoop]
      rw [show ((c :: m') ++ K : List Char) = c :: (m' ++ K) from rfl] at hfail
      rw [hfail, hloop]
    · have hsucc : cont ((c :: m') ++ K) = some (F (c :: m'), r₀) :=
        hA (c :: m') (List.suffix_refl _) hws
      refine ⟨[], c :: m', rfl, hws, ?_⟩
      exact lazyLoop_cont_some cont _ _ _ hsucc

theorem spanList_append_break (p : Char → Bool) :
    ∀ (b K : List Char), b.all p = false →
      ∃ w c t, b = w ++ c :: t ∧ (∀ x ∈ w, p x = true) ∧ p c = false ∧
        spanList p (b ++ K) = (w, c :: (t ++ K)) := by
  intro b
  induction b with
  | nil => intro K h; simp at h
  | cons x b' ih =>
    intro K h
    rcases hx : p x with _ | _
    · exact ⟨[], x, b', rfl, by simp, hx, by simp [spanList, hx]⟩
    · have hb' : b'.all p = false := by
        rw [List.all_cons, hx] at h
        simpa using h
      obtain ⟨w, c, t, heq, hw, hc, hspan⟩ := ih K hb'
      refine ⟨x :: w, c, t, by rw [heq, List.cons_append], ?_, hc, ?_⟩
      · intro y hy
        rcases List.mem_cons.mp hy with rfl | hy
        · exact hx
        · exact hw y hy
      · rw [List.cons_append, spanList]
        simp only [hx, if_pos]
        rw [hspan]

theorem allWs_eq_all (b : List Char) : allWs b = b.all isWsChar := rfl

theorem head_lt_not_ws (cs : List Char) (h : cs.head? = some '<') :
    ∀ c, cs.head? = some c → isWsChar c = false := by
  intro c hc
  rw [h] at hc
  have : c = '<' := by simpa using hc.symm
  subst this
  decide

theorem wsLazy_consume (closeAtoms : List Atom) (F : List Char → List (List Char))
    (mid K r₀ : List Char) (hK : K.head? = some '<')
    (hA : ∀ b, b <:+ mid → allWs b = true → tryMatch closeAtoms (b ++ K) = some (F b, r₀))
    (hB : ∀ b, b <:+ mid → allWs b = false → tryMatch closeAtoms (b ++ K) = none) :
    ∃ mw i tw, mid = mw ++ i ++ tw ∧
      tryMatch (.ws :: .lazyAny :: closeAtoms) (mid ++ K) = some (mw :: i :: F tw, r₀) := by
  rcases hall : allWs mid with _ | _
  · have hall' : mid.all isWsChar = false := by rw [← allWs_eq_all]; exact hall
    obtain ⟨mw, c, t, heq, hw, hc, hspan⟩ := spanList_append_break isWsChar mid K hall'
    have hsufct : (c :: t) <:+ mid := ⟨mw, heq.symm⟩
    have hA' : ∀ b, b <:+ (c :: t) → allWs b = true → tryMatch closeAtoms (b ++ K) = some (F b, r₀) :=
      fun b hb => hA b (hb.trans hsufct)
    have hB' : ∀ b, b <:+ (c :: t) → allWs b = false → tryMatch closeAtoms (b ++ K) = none :=
      fun b hb => hB b (hb.trans hsufct)
    obtain ⟨i, tw, hitw, htw, hloop⟩ := lazy_spec (tryMatch closeAtoms) K F r₀ (c :: t) hA' hB'
    refine ⟨mw, i, tw, ?_, ?_⟩
    · rw [heq, hitw, List.append_assoc]
    · rw [show tryMatch (.ws :: .lazyAny :: closeAtoms) (mid ++ K) =
          (tryMatch (.lazyAny :: closeAtoms) (spanList isWsChar (mid ++ K)).2).map
            (fun x => ((spanList isWsChar (mid ++ K)).1 :: x.1, x.2)) from rfl]
      rw [hspan]
      rw [show (c :: (t ++ K) : List Char) = (c :: t) ++ K from rfl]
      rw [show tryMatch (.lazyAny :: closeAtoms) ((c :: t) ++ K) =
          lazyLoop (tryMatch closeAtoms) ((c :: t) ++ K) from rfl]
      rw [hloop]
      simp
  · refine ⟨mid, [], [], by simp, ?_⟩
    have hspan : spanList isWsChar (mid ++ K) = (mid, K) :=
      spanList_ws_append mid K hall (head_lt_not_ws K hK)
    rw [show tryMatch (.ws :: .lazyAny :: closeAtoms) (mid ++ K) =
        (tryMatch (.lazyAny :: closeAtoms) (spanList isWsChar (mid ++ K)).2).map
          (fun x => ((spanList isWsChar (mid ++ K)).1 :: x.1, x.2)) from rfl]
    rw [hspan]
    have hcont : tryMatch closeAtoms ([] ++ K) = some (F [], r₀) :=
      hA [] List.nil_suffix rfl
    rw [show tryMatch (.lazyAny :: closeAtoms) K =
        lazyLoop (tryMatch closeAtoms) K from rfl]
    rw [lazyLoop_cont_some (tryMatch closeAtoms) K (F []) r₀ (by simpa using hcont)]
    simp

theorem structClose_A (b w2 r : List Char) (hb : allWs b = true) (hw2 : allWs w2 = true) :
    tryMatch [.ws, .lit "</script>".toList, .ws, .lit eauC]
      (b ++ ("</script>".toList ++ (w2 ++ (eauC ++ r)))) =
      some ([b, "</script>".toList, w2, eauC], r) := by
  rw [tryMatch_ws b ("</script>".toList ++ (w2 ++ (eauC ++ r))) _ hb
    (head_lt_not_ws ("</script>".toList ++ (w2 ++ (eauC ++ r))) rfl)]
  rw [tryMatch_lit]
  rw [tryMatch_ws w2 (eauC ++ r) _ hw2 (head_lt_not_ws (eauC ++ r) rfl)]
  rw [tryMatch_lit]
  simp [tryMatch]

theorem structClose_B (b K : List Char) (hb : allWs b = false)
    (hlt : ∀ c ∈ b, c ≠ '<') :
    tryMatch [.ws, .lit "</script>".toList, .ws, .lit eauC] (b ++ K) = none := by
  have hb' : b.all isWsChar = false := by rw [← allWs_eq_all]; exact hb
  obtain ⟨w', c', t', heq, hw', hc', hspan⟩ := spanList_append_break isWsChar b K hb'
  have hcmem : c' ∈ b := by rw [heq]; exact List.mem_append_right _ (List.mem_cons_self c' t')
  have hcne : ¬ ('<' = c') := fun he => (hlt c' hcmem) he.symm
  rw [show tryMatch [.ws, .lit "</script>".toList, .ws, .lit eauC] (b ++ K) =
      (tryMatch [.lit "</script>".toList, .ws, .lit eauC]
        (spanList isWsChar (b ++ K)).2).map
        (fun x => ((spanList isWsChar (b ++ K)).1 :: x.1, x.2)) from rfl]
  rw [hspan]
  rw [show tryMatch [.lit "</script>".toList, .ws, .lit eauC] (c' :: (t' ++ K)) = none from by
    rw [show ("</script>".toList : List Char) = '<' :: "/script>".toList from rfl]
    rw [tryMatch]
    simp [stripLit, hcne]]
  simp

theorem hoursClose_A (b r : List Char) (hb : allWs b = true) :
    tryMatch [.ws, .lit eauC] (b ++ (eauC ++ r)) = some ([b, eauC], r) := by
  rw [tryMatch_ws b (eauC ++ r) _ hb (head_lt_not_ws (eauC ++ r) rfl)]
  rw [tryMatch_lit]
  simp [tryMatch]

theorem hoursClose_B (b K : List Char) (hb : allWs b = false) (hin : inertB b = true)
    (hK : ∀ c, K.head? = some c → c ≠ '!') :
    tryMatch [.ws, .lit eauC] (b ++ K) = none := by
  have hb' : b.all isWsChar = false := by rw [← allWs_eq_all]; exact hb
  obtain ⟨w', c', t', heq, hw', hc', hspan⟩ := spanList_append_break isWsChar b K hb'
  rw [show tryMatch [.ws, .lit eauC] (b ++ K) =
      (tryMatch [.lit eauC] (spanList isWsChar (b ++ K)).2).map
        (fun x => ((spanList isWsChar (b ++ K)).1 :: x.1, x.2)) from rfl]
  rw [hspan]
  have hfail : tryMatch [.lit eauC] (c' :: (t' ++ K)) = none := by
    rw [show (eauC : List Char) = '<' :: '!' :: "-- END AUTO-UPDATE -->".toList from rfl]
    rw [tryMatch]
    by_cases hc'' : c' = '<'
    · subst hc''
      cases t' with
      | nil =>
        cases hKc : K with
        | nil => simp [stripLit]
        | cons k0 K' =>
          have hk0 : k0 ≠ '!' := hK k0 (by rw [hKc]; rfl)
          have hk0' : ¬ ('!' = k0) := fun he => hk0 he.symm
          simp [stripLit, hk0']
      | cons d t'' =>
        have hsufb : ('<' :: d :: t'') <:+ b := ⟨w', heq.symm⟩
        have hin' : inertB ('<' :: d :: t'') = true := inertB_suffix b _ hsufb hin
        have hd : d ≠ '!' := by
          intro hd
          subst hd
          simp [inertB] at hin'
        have hd' : ¬ ('!' = d) := fun he => hd he.symm
        simp [stripLit, hd']
    · have hc3 : ¬ ('<' = c') := fun he => hc'' he.symm
      simp [stripLit, hc3]
  rw [hfail]
  simp

theorem region_struct (w1 mid w2 R : List Char)
    (hw1 : allWs w1 = true) (hw2 : allWs w2 = true) (hmid : '<' ∉ mid) :
    ∃ ps,
      tryMatch structPat
        (auOpenC (nameOf .structK) ++ (w1 ++ (scriptTagL ++ (mid ++
          ("</script>".toList ++ (w2 ++ (eauC ++ R))))))) = some (ps, R) ∧
      grp3 ps 0 = auOpenC (nameOf .structK) ++ w1 ++ scriptTagL ∧
      grp3 ps 6 = "</script>".toList ++ w2 ++ eauC := by
  have hKhead : ("</script>".toList ++ (w2 ++ (eauC ++ R))).head? = some '<' := rfl
  have hA : ∀ b, b <:+ mid → allWs b = true →
      tryMatch [.ws, .lit "</script>".toList, .ws, .lit eauC]
        (b ++ ("</script>".toList ++ (w2 ++ (eauC ++ R)))) =
        some ([b, "</script>".toList, w2, eauC], R) :=
    fun b _ hb => structClose_A b w2 R hb hw2
  have hB : ∀ b, b <:+ mid → allWs b = false →
      tryMatch [.ws, .lit "</script>".toList, .ws, .lit eauC]
        (b ++ ("</script>".toList ++ (w2 ++ (eauC ++ R)))) = none :=
    fun b hsuf hb =>
      structClose_B b _ hb (fun c hc he => hmid (he ▸ hsuf.subset hc))
  obtain ⟨mw, i, tw, hmideq, htm⟩ :=
    wsLazy_consume [.ws, .lit "</script>".toList, .ws, .lit eauC]
      (fun b => [b, "</script>".toList, w2, eauC]) mid
      ("</script>".toList ++ (w2 ++ (eauC ++ R))) R hKhead hA hB
  refine ⟨[auOpenC (nameOf .structK), w1, scriptTagL, mw, i, tw,
    "</script>".toList, w2, eauC], ?_, ?_, ?_⟩
  · rw [show structPat = .lit (auOpenC (nameOf .structK)) :: .ws :: .lit scriptTagL ::
        .ws :: .lazyAny :: [.ws, .lit "</script>".toList, .ws, .lit eauC] from rfl]
    rw [tryMatch_lit]
    rw [tryMatch_ws w1
      (scriptTagL ++ (mid ++ ("</script>".toList ++ (w2 ++ (eauC ++ R))))) _ hw1
      (head_lt_not_ws (scriptTagL ++ (mid ++ ("</script>".toList ++ (w2 ++ (eauC ++ R))))) rfl)]
    rw [tryMatch_lit]
    rw [htm]
    simp
  · simp [grp3]
  · simp [grp3]

theorem region_hours (mid R : List Char) (hmid : inertB mid = true) :
    ∃ ps,
      tryMatch hoursTablePat (auOpenC (nameOf .hoursTableK) ++ (mid ++ (eauC ++ R))) =
        some (ps, R) ∧
      ps.getD 0 [] = auOpenC (nameOf .hoursTableK) ∧ ps.getD 4 [] = eauC := by
  have hKhead : (eauC ++ R).head? = some '<' := rfl
  have hA : ∀ b, b <:+ mid → allWs b = true →
      tryMatch [.ws, .lit eauC] (b ++ (eauC ++ R)) = some ([b, eauC], R) :=
    fun b _ hb => hoursClose_A b R hb
  have hB : ∀ b, b <:+ mid → allWs b = false →
      tryMatch [.ws, .lit eauC] (b ++ (eauC ++ R)) = none := by
    intro b hsuf hb
    refine hoursClose_B b (eauC ++ R) hb (inertB_suffix mid b hsuf hmid) ?_
    intro c hc
    rw [hKhead] at hc
    have : c = '<' := by simpa using hc.symm
    subst this
    decide
  obtain ⟨mw, i, tw, hmideq, htm⟩ :=
    wsLazy_consume [.ws, .lit eauC] (fun b => [b, eauC]) mid (eauC ++ R) R hKhead hA hB
  refine ⟨[auOpenC (nameOf .hoursTableK), mw, i, tw, eauC], ?_, rfl, rfl⟩
  rw [show hoursTablePat = .lit (auOpenC (nameOf .hoursTableK)) :: .ws :: .lazyAny ::
      [.ws, .lit eauC] from rfl]
  rw [tryMatch_lit]
  rw [htm]
  simp

theorem head?_append_of_head (l x : List Char) (c : Char) (h : l.head? = some c) :
    (l ++ x).head? = some c := by
  cases l with
  | nil => simp at h
  | cons a t => simpa using h

theorem region_simple (nm openTag closeTag w1 mid w2 R : List Char)
    (hoT : openTag.head? = some '<') (hcT : closeTag.head? = some '<')
    (hw1 : allWs w1 = true) (hw2 : allWs w2 = true)
    (hmidne : mid ≠ []) (hmid : '<' ∉ mid) :
    tryMatch [.lit (auOpenC nm), .ws, .lit openTag, .notch '<', .lit closeTag, .ws, .lit eauC]
      (auOpenC nm ++ (w1 ++ (openTag ++ (mid ++ (closeTag ++ (w2 ++ (eauC ++ R))))))) =
      some ([auOpenC nm, w1, openTag, mid, closeTag, w2, eauC], R) := by
  rw [tryMatch_lit]
  rw [tryMatch_ws w1 (openTag ++ (mid ++ (closeTag ++ (w2 ++ (eauC ++ R))))) _ hw1
    (head_lt_not_ws _ (head?_append_of_head _ _ _ hoT))]
  rw [tryMatch_lit]
  rw [tryMatch_notch '<' mid (closeTag ++ (w2 ++ (eauC ++ R))) _ hmidne hmid
    (head?_append_of_head _ _ _ hcT)]
  rw [tryMatch_lit]
  rw [tryMatch_ws w2 (eauC ++ R) _ hw2 (head_lt_not_ws (eauC ++ R) rfl)]
  rw [tryMatch_lit]
  simp [tryMatch]

theorem region_navBrand (attrs w1 mid w2 R : List Char)
    (hattrs : '>' ∉ attrs) (hw1 : allWs w1 = true) (hw2 : allWs w2 = true)
    (hmidne : mid ≠ []) (hmid : '<' ∉ mid) :
    tryMatch navBrandPat
      (auOpenC (nameOf .navBrandK) ++ (w1 ++ (navATagL ++ (attrs ++ (">".toList ++
        (mid ++ ("</a>".toList ++ (w2 ++ (eauC ++ R))))))))) =
      some ([auOpenC (nameOf .navBrandK), w1, navATagL, attrs, ">".toList, mid,
        "</a>".toList, w2, eauC], R) := by
  rw [show navBrandPat = .lit (auOpenC (nameOf .navBrandK)) :: .ws :: .lit navATagL ::
      .notchStar '>' :: .lit ">".toList :: .notch '<' :: .lit "</a>".toList ::
      .ws :: [.lit eauC] from rfl]
  rw [tryMatch_lit]
  rw [tryMatch_ws w1 (navATagL ++ (attrs ++ (">".toList ++
      (mid ++ ("</a>".toList ++ (w2 ++ (eauC ++ R))))))) _ hw1
    (head_lt_not_ws _ (head?_append_of_head _ _ _ (by rfl)))]
  rw [tryMatch_lit]
  rw [tryMatch_notchStar '>' attrs (">".toList ++
      (mid ++ ("</a>".toList ++ (w2 ++ (eauC ++ R))))) _ hattrs
    (head?_append_of_head _ _ _ (by rfl))]
  rw [tryMatch_lit]
  rw [tryMatch_notch '<' mid ("</a>".toList ++ (w2 ++ (eauC ++ R))) _ hmidne hmid
    (head?_append_of_head _ _ _ (by rfl))]
  rw [tryMatch_lit]
  rw [tryMatch_ws w2 (eauC ++ R) _ hw2 (head_lt_not_ws (eauC ++ R) rfl)]
  rw [tryMatch_lit]
  simp [tryMatch]

theorem region_contactAddr (w1 p1 p2 w2 R : List Char)
    (hw1 : allWs w1 = true) (hw2 : allWs w2 = true)
    (hp1ne : p1 ≠ []) (hp1 : '<' ∉ p1) (hp2ne : p2 ≠ []) (hp2 : '<' ∉ p2) :
    tryMatch contactAddrPat
      (auOpenC (nameOf .contactAddrK) ++ (w1 ++ (addrPL ++ (p1 ++ ("<br>".toList ++
        (p2 ++ ("</strong></p>".toList ++ (w2 ++ (eauC ++ R))))))))) =
      some ([auOpenC (nameOf .contactAddrK), w1, addrPL, p1, "<br>".toList, p2,
        "</strong></p>".toList, w2, eauC], R) := by
  rw [show contactAddrPat = .lit (auOpenC (nameOf .contactAddrK)) :: .ws :: .lit addrPL ::
      .notch '<' :: .lit "<br>".toList :: .notch '<' :: .lit "</strong></p>".toList ::
      .ws :: [.lit eauC] from rfl]
  rw [tryMatch_lit]
  rw [tryMatch_ws w1 (addrPL ++ (p1 ++ ("<br>".toList ++
      (p2 ++ ("</strong></p>".toList ++ (w2 ++ (eauC ++ R))))))) _ hw1
    (head_lt_not_ws _ (head?_append_of_head _ _ _ (by rfl)))]
  rw [tryMatch_lit]
  rw [tryMatch_notch '<' p1 ("<br>".toList ++
      (p2 ++ ("</strong></p>".toList ++ (w2 ++ (eauC ++ R))))) _ hp1ne hp1
    (head?_append_of_head _ _ _ (by rfl))]
  rw [tryMatch_lit]
  rw [tryMatch_notch '<' p2 ("</strong></p>".toList ++ (w2 ++ (eauC ++ R))) _ hp2ne hp2
    (head?_append_of_head _ _ _ (by rfl))]
  rw [tryMatch_lit]
  rw [tryMatch_ws w2 (eauC ++ R) _ hw2 (head_lt_not_ws (eauC ++ R) rfl)]
  rw [tryMatch_lit]
  simp [tryMatch]

/-! ## Skipping a whole anchor region of a different kind -/

theorem allWs_no_lt (w : List Char) (h : allWs w = true) : '<' ∉ w := by
  intro hm
  have := (List.all_eq_true.mp h) '<' hm
  simp [isWsChar] at this

theorem failAll_noLt (nm a : List Char) (h : '<' ∉ a) : failAll nm a :=
  failAll_inert nm a (noLt_inertB a h)

theorem names_mismatch : ∀ k k' : AnchorKind, k ≠ k' →
    mismatchZip (auOpenC (nameOf k)) (auOpenC (nameOf k')) = true := by
  intro k k' h
  cases k <;> cases k' <;> first | exact absurd rfl h | decide

theorem name_tail_clean : ∀ k : AnchorKind, '<' ∉ (auOpenC (nameOf k)).drop 1 := by
  intro k
  cases k <;> decide

theorem eau_mismatch : ∀ k : AnchorKind, mismatchZip (auOpenC (nameOf k)) eauC = true := by
  intro k
  cases k <;> decide

theorem failAll_au (k k' : AnchorKind) (h : k ≠ k') :
    failAll (nameOf k) (auOpenC (nameOf k')) :=
  failAll_of_mismatch _ _ (names_mismatch k k' h) (fun c hc => by
    intro he
    exact name_tail_clean k' (he ▸ hc))

theorem failAll_eau (k : AnchorKind) : failAll (nameOf k) eauC :=
  failAll_of_mismatch _ _ (eau_mismatch k) (fun c hc => by
    intro he
    subst he
    revert hc
    decide)

theorem failAll_anchor (k k' : AnchorKind) (g1 mid g3 : List Char) (hne : k ≠ k')
    (hends : wfEnds k' g1 g3) (hmid : wfMid k' mid) :
    failAll (nameOf k) (g1 ++ (mid ++ g3)) := by
  have hau := failAll_au k k' hne
  have heau := failAll_eau k
  cases k' with
  | structK =>
    obtain ⟨⟨w1, hw1, hg1⟩, ⟨w2, hw2, hg3⟩⟩ := hends
    subst hg1
    subst hg3
    refine failAll_append _ _ _ ?_ (failAll_append _ _ _ (failAll_noLt _ _ hmid) ?_)
    · exact failAll_append _ _ _ (failAll_append _ _ _ hau
        (failAll_noLt _ _ (allWs_no_lt w1 hw1))) (failAll_inert _ _ (by decide))
    · exact failAll_append _ _ _ (failAll_append _ _ _ (failAll_inert _ _ (by decide))
        (failAll_noLt _ _ (allWs_no_lt w2 hw2))) heau
  | hoursTableK =>
    obtain ⟨hg1, hg3⟩ := hends
    subst hg1
    subst hg3
    exact failAll_append _ _ _ hau (failAll_append _ _ _ (failAll_inert _ _ hmid) heau)
  | addressBarK =>
    obtain ⟨⟨w1, hw1, hg1⟩, ⟨w2, hw2, hg3⟩⟩ := hends
    obtain ⟨hmne, hmlt⟩ := hmid
    subst hg1
    subst hg3
    refine failAll_append _ _ _ ?_ (failAll_append _ _ _ (failAll_noLt _ _ hmlt) ?_)
    · exact failAll_append _ _ _ (failAll_append _ _ _ hau
        (failAll_noLt _ _ (allWs_no_lt w1 hw1))) (failAll_inert _ _ (by decide))
    · exact failAll_append _ _ _ (failAll_append _ _ _ (failAll_inert _ _ (by decide))
        (failAll_noLt _ _ (allWs_no_lt w2 hw2))) heau
  | brandHeaderK =>
    obtain ⟨⟨w1, hw1, hg1⟩, ⟨w2, hw2, hg3⟩⟩ := hends
    obtain ⟨hmne, hmlt⟩ := hmid
    subst hg1
    subst hg3
    refine failAll_append _ _ _ ?_ (failAll_append _ _ _ (failAll_noLt _ _ hmlt) ?_)
    · exact failAll_append _ _ _ (failAll_append _ _ _ hau
        (failAll_noLt _ _ (allWs_no_lt w1 hw1))) (failAll_inert _ _ (by decide))
    · exact failAll_append _ _ _ (failAll_append _ _ _ (failAll_inert _ _ (by decide))
        (failAll_noLt _ _ (allWs_no_lt w2 hw2))) heau
  | phoneK =>
    obtain ⟨⟨w1, hw1, hg1⟩, ⟨w2, hw2, hg3⟩⟩ := hends
    obtain ⟨hmne, hmlt⟩ := hmid
    subst hg1
    subst hg3
    refine failAll_append _ _ _ ?_ (failAll_append _ _ _ (failAll_noLt _ _ hmlt) ?_)
    · exact failAll_append _ _ _ (failAll_append _ _ _ hau
        (failAll_noLt _ _ (allWs_no_lt w1 hw1))) (failAll_inert _ _ (by decide))
    · exact failAll_append _ _ _ (failAll_append _ _ _ (failAll_inert _ _ (by decide))
        (failAll_noLt _ _ (allWs_no_lt w2 hw2))) heau
  | navBrandK =>
    obtain ⟨⟨w1, attrs, hw1, hattrg, hattrl, hg1⟩, ⟨w2, hw2, hg3⟩⟩ := hends
    obtain ⟨hmne, hmlt⟩ := hmid
    subst hg1
    subst hg3
    refine failAll_append _ _ _ ?_ (failAll_append _ _ _ (failAll_noLt _ _ hmlt) ?_)
    · refine failAll_append _ _ _ (failAll_append _ _ _ (failAll_append _ _ _
        (failAll_append _ _ _ hau (failAll_noLt _ _ (allWs_no_lt w1 hw1)))
        (failAll_inert _ _ (by decide))) (failAll_noLt _ _ hattrl)) ?_
      exact failAll_noLt _ _ (by decide)
    · exact failAll_append _ _ _ (failAll_append _ _ _ (failAll_inert _ _ (by decide))
        (failAll_noLt _ _ (allWs_no_lt w2 hw2))) heau
  | contactAddrK =>
    obtain ⟨⟨w1, hw1, hg1⟩, ⟨w2, hw2, hg3⟩⟩ := hends
    obtain ⟨p1, p2, hp1ne, hp2ne, hp1, hp2, hmeq⟩ := hmid
    subst hg1
    subst hg3
    subst hmeq
    refine failAll_append _ _ _ ?_ (failAll_append _ _ _ ?_ ?_)
    · exact failAll_append _ _ _ (failAll_append _ _ _ hau
        (failAll_noLt _ _ (allWs_no_lt w1 hw1))) (failAll_inert _ _ (by decide))
    · exact failAll_append _ _ _ (failAll_append _ _ _ (failAll_noLt _ _ hp1)
        (failAll_inert _ _ (by decide))) (failAll_noLt _ _ hp2)
    · exact failAll_append _ _ _ (failAll_append _ _ _ (failAll_inert _ _ (by decide))
        (failAll_noLt _ _ (allWs_no_lt w2 hw2))) heau

/-! ## The page-level behaviour of one anchor replacement -/

theorem findMatch_of_tryMatch (pat : List Atom) (cs : List Char)
    (ps : List (List Char)) (r : List Char) (h : tryMatch pat cs = some (ps, r)) :
    findMatch pat cs = some ([], ps, r) := by
  cases cs <;> simp [findMatch, h]

theorem wfSeg_anch_ends {k : AnchorKind} {g1 mid g3 : List Char}
    (h : wfSeg (.anch k g1 mid g3)) : wfEnds k g1 g3 := h.1

theorem wfSeg_anch_mid {k : AnchorKind} {g1 mid g3 : List Char}
    (h : wfSeg (.anch k g1 mid g3)) : wfMid k mid := h.2

theorem replaceFirst_page (k : AnchorKind) (pr : List Atom)
    (cb : List (List Char) → List Char) (newMid : List Char)
    (hpat : patOf k = .lit (auOpenC (nameOf k)) :: pr)
    (hregion : ∀ g1 mid g3 R, wfEnds k g1 g3 → wfMid k mid →
      ∃ ps, tryMatch (patOf k) ((g1 ++ (mid ++ g3)) ++ R) = some (ps, R) ∧
        cb ps = g1 ++ (newMid ++ g3)) :
    ∀ P, wfSegs P →
      replaceFirst (patOf k) cb (renderPage P) =
        (renderPage (updAnchor k newMid P), hasAnchor k P) := by
  intro P
  induction P with
  | nil =>
    intro _
    rw [hpat]
    rw [show renderPage [] = ([] : List Char) from rfl]
    rw [show replaceFirst (.lit (auOpenC (nameOf k)) :: pr) cb [] = ([], false) from by
      rw [replaceFirst]
      rw [show findMatch (.lit (auOpenC (nameOf k)) :: pr) [] = none from by
        rw [findMatch, auOpenC_eq]
        rfl]]
    rfl
  | cons s P' ih =>
    intro hwf
    have hs : wfSeg s := hwf s (List.mem_cons_self s P')
    have hP' : wfSegs P' := fun x hx => hwf x (List.mem_cons_of_mem s hx)
    have ih' := ih hP'
    cases s with
    | text t =>
      have hfa : failAll (nameOf k) t := failAll_inert _ t hs
      rw [show renderPage (.text t :: P') = t ++ renderPage P' from rfl, hpat]
      rw [replaceFirst_skip (nameOf k) pr cb t (renderPage P') hfa]
      rw [← hpat, ih']
      rfl
    | anch k' g1 mid g3 =>
      by_cases hk : k' = k
      · subst hk
        obtain ⟨ps, htm, hcb⟩ :=
          hregion g1 mid g3 (renderPage P') (wfSeg_anch_ends hs) (wfSeg_anch_mid hs)
        rw [show renderPage (.anch k' g1 mid g3 :: P') =
            (g1 ++ (mid ++ g3)) ++ renderPage P' from rfl]
        rw [replaceFirst, findMatch_of_tryMatch _ _ ps (renderPage P') htm]
        show (([] : List Char) ++ cb ps ++ renderPage P', true) = _
        rw [hcb]
        rw [show updAnchor k' newMid (.anch k' g1 mid g3 :: P') =
            .anch k' g1 newMid g3 :: P' from by rw [updAnchor, if_pos rfl]]
        rw [show hasAnchor k' (.anch k' g1 mid g3 :: P') = true from by
          rw [hasAnchor]
          simp]
        rw [show renderPage (.anch k' g1 newMid g3 :: P') =
            (g1 ++ (newMid ++ g3)) ++ renderPage P' from rfl]
        simp
      · have hfa : failAll (nameOf k) (g1 ++ (mid ++ g3)) :=
          failAll_anchor k k' g1 mid g3 (fun he => hk he.symm)
            (wfSeg_anch_ends hs) (wfSeg_anch_mid hs)
        rw [show renderPage (.anch k' g1 mid g3 :: P') =
            (g1 ++ (mid ++ g3)) ++ renderPage P' from rfl, hpat]
        rw [replaceFirst_skip (nameOf k) pr cb _ (renderPage P') hfa]
        rw [← hpat, ih']
        rw [show updAnchor k newMid (.anch k' g1 mid g3 :: P') =
            .anch k' g1 mid g3 :: updAnchor k newMid P' from by
          rw [updAnchor, if_neg hk]]
        rw [show hasAnchor k (.anch k' g1 mid g3 :: P') = hasAnchor k P' from by
          rw [hasAnchor]
          simp [hk]]
        rfl

theorem step_struct (bd : BusinessData) (today : CivilDate) (isIndex : Bool)
    (P : List Seg) (hP : wfSegs P) :
    replaceFirst structPat
      (fun ps => grp3 ps 0 ++ "\n    ".toList ++
        indentTail (structuredDataJSONFor isIndex bd today) ++ "\n    ".toList ++ grp3 ps 6)
      (renderPage P) =
      (renderPage (updAnchor .structK (newMidOf bd today isIndex .structK) P),
        hasAnchor .structK P) := by
  have hmain := replaceFirst_page .structK
    [.ws, .lit scriptTagL, .ws, .lazyAny, .ws, .lit "</script>".toList, .ws, .lit eauC]
    (fun ps => grp3 ps 0 ++ "\n    ".toList ++
      indentTail (structuredDataJSONFor isIndex bd today) ++ "\n    ".toList ++ grp3 ps 6)
    (newMidOf bd today isIndex .structK) rfl ?_ P hP
  · exact hmain
  · intro g1 mid g3 R hends hmid
    obtain ⟨⟨w1, hw1, hg1⟩, ⟨w2, hw2, hg3⟩⟩ := hends
    subst hg1
    subst hg3
    obtain ⟨ps, htm, h0, h6⟩ := region_struct w1 mid w2 R hw1 hw2 hmid
    refine ⟨ps, ?_, ?_⟩
    · rw [show ((auOpenC (nameOf .structK) ++ w1 ++ scriptTagL) ++
          (mid ++ ("</script>".toList ++ w2 ++ eauC))) ++ R =
          auOpenC (nameOf .structK) ++ (w1 ++ (scriptTagL ++ (mid ++
            ("</script>".toList ++ (w2 ++ (eauC ++ R)))))) from by
        simp [List.append_assoc]]
      exact htm
    · show grp3 ps 0 ++ "\n    ".toList ++
          indentTail (structuredDataJSONFor isIndex bd today) ++ "\n    ".toList ++
          grp3 ps 6 = _
      rw [h0, h6]
      simp [newMidOf, List.append_assoc]

theorem step_addressBar (bd : BusinessData) (today : CivilDate) (isIndex : Bool)
    (P : List Seg) (hP : wfSegs P) :
    replaceFirst addressBarPat
      (fun ps => grp3 ps 0 ++ generateAddressBarHTML bd ++ grp3 ps 4)
      (renderPage P) =
      (renderPage (updAnchor .addressBarK (newMidOf bd today isIndex .addressBarK) P),
        hasAnchor .addressBarK P) := by
  have hmain := replaceFirst_page .addressBarK
    [.ws, .lit addressDivL, .notch '<', .lit "</div>".toList, .ws, .lit eauC]
    (fun ps => grp3 ps 0 ++ generateAddressBarHTML bd ++ grp3 ps 4)
    (newMidOf bd today isIndex .addressBarK) rfl ?_ P hP
  · exact hmain
  · intro g1 mid g3 R hends hmid
    obtain ⟨⟨w1, hw1, hg1⟩, ⟨w2, hw2, hg3⟩⟩ := hends
    obtain ⟨hmne, hmlt⟩ := hmid
    subst hg1
    subst hg3
    refine ⟨[auOpenC (nameOf .addressBarK), w1, addressDivL, mid, "</div>".toList, w2, eauC],
      ?_, ?_⟩
    · rw [show ((auOpenC (nameOf .addressBarK) ++ w1 ++ addressDivL) ++
          (mid ++ ("</div>".toList ++ w2 ++ eauC))) ++ R =
          auOpenC (nameOf .addressBarK) ++ (w1 ++ (addressDivL ++ (mid ++
            ("</div>".toList ++ (w2 ++ (eauC ++ R)))))) from by
        simp [List.append_assoc]]
      exact region_simple (nameOf .addressBarK) addressDivL "</div>".toList w1 mid w2 R
        rfl rfl hw1 hw2 hmne hmlt
    · simp [grp3, newMidOf, List.append_assoc]

theorem step_brandHeader (bd : BusinessData) (today : CivilDate) (isIndex : Bool)
    (P : List Seg) (hP : wfSegs P) :
    replaceFirst brandHeaderPat
      (fun ps => grp3 ps 0 ++ bd.name ++ grp3 ps 4)
      (renderPage P) =
      (renderPage (updAnchor .brandHeaderK (newMidOf bd today isIndex .brandHeaderK) P),
        hasAnchor .brandHeaderK P) := by
  have hmain := replaceFirst_page .brandHeaderK
    [.ws, .lit brandDivL, .notch '<', .lit "</div>".toList, .ws, .lit eauC]
    (fun ps => grp3 ps 0 ++ bd.name ++ grp3 ps 4)
    (newMidOf bd today isIndex .brandHeaderK) rfl ?_ P hP
  · exact hmain
  · intro g1 mid g3 R hends hmid
    obtain ⟨⟨w1, hw1, hg1⟩, ⟨w2, hw2, hg3⟩⟩ := hends
    obtain ⟨hmne, hmlt⟩ := hmid
    subst hg1
    subst hg3
    refine ⟨[auOpenC (nameOf .brandHeaderK), w1, brandDivL, mid, "</div>".toList, w2, eauC],
      ?_, ?_⟩
    · rw [show ((auOpenC (nameOf .brandHeaderK) ++ w1 ++ brandDivL) ++
          (mid ++ ("</div>".toList ++ w2 ++ eauC))) ++ R =
          auOpenC (nameOf .brandHeaderK) ++ (w1 ++ (brandDivL ++ (mid ++
            ("</div>".toList ++ (w2 ++ (eauC ++ R)))))) from by
        simp [List.append_assoc]]
      exact region_simple (nameOf .brandHeaderK) brandDivL "</div>".toList w1 mid w2 R
        rfl rfl hw1 hw2 hmne hmlt
    · simp [grp3, newMidOf, List.append_assoc]

theorem step_phone (bd : BusinessData) (today : CivilDate) (isIndex : Bool)
    (P : List Seg) (hP : wfSegs P) :
    replaceFirst phonePat
      (fun ps => grp3 ps 0 ++ bd.phone.display ++ grp3 ps 4)
      (renderPage P) =
      (renderPage (updAnchor .phoneK (newMidOf bd today isIndex .phoneK) P),
        hasAnchor .phoneK P) := by
  have hmain := replaceFirst_page .phoneK
    [.ws, .lit phonePL, .notch '<', .lit "</strong></p>".toList, .ws, .lit eauC]
    (fun ps => grp3 ps 0 ++ bd.phone.display ++ grp3 ps 4)
    (newMidOf bd today isIndex .phoneK) rfl ?_ P hP
  · exact hmain
  · intro g1 mid g3 R hends hmid
    obtain ⟨⟨w1, hw1, hg1⟩, ⟨w2, hw2, hg3⟩⟩ := hends
    obtain ⟨hmne, hmlt⟩ := hmid
    subst hg1
    subst hg3
    refine ⟨[auOpenC (nameOf .phoneK), w1, phonePL, mid, "</strong></p>".toList, w2, eauC],
      ?_, ?_⟩
    · rw [show ((auOpenC (nameOf .phoneK) ++ w1 ++ phonePL) ++
          (mid ++ ("</strong></p>".toList ++ w2 ++ eauC))) ++ R =
          auOpenC (nameOf .phoneK) ++ (w1 ++ (phonePL ++ (mid ++
            ("</strong></p>".toList ++ (w2 ++ (eauC ++ R)))))) from by
        simp [List.append_assoc]]
      exact region_simple (nameOf .phoneK) phonePL "</strong></p>".toList w1 mid w2 R
        rfl rfl hw1 hw2 hmne hmlt
    · simp [grp3, newMidOf, List.append_assoc]

theorem step_navBrand (bd : BusinessData) (today : CivilDate) (isIndex : Bool)
    (P : List Seg) (hP : wfSegs P) :
    replaceFirst navBrandPat
      (fun ps => grp5 ps ++ bd.shortName ++ grp3 ps 6)
      (renderPage P) =
      (renderPage (updAnchor .navBrandK (newMidOf bd today isIndex .navBrandK) P),
        hasAnchor .navBrandK P) := by
  have hmain := replaceFirst_page .navBrandK
    [.ws, .lit navATagL, .notchStar '>', .lit ">".toList, .notch '<', .lit "</a>".toList,
      .ws, .lit eauC]
    (fun ps => grp5 ps ++ bd.shortName ++ grp3 ps 6)
    (newMidOf bd today isIndex .navBrandK) rfl ?_ P hP
  · exact hmain
  · intro g1 mid g3 R hends hmid
    obtain ⟨⟨w1, attrs, hw1, hattrg, hattrl, hg1⟩, ⟨w2, hw2, hg3⟩⟩ := hends
    obtain ⟨hmne, hmlt⟩ := hmid
    subst hg1
    subst hg3
    refine ⟨[auOpenC (nameOf .navBrandK), w1, navATagL, attrs, ">".toList, mid,
      "</a>".toList, w2, eauC], ?_, ?_⟩
    · rw [show ((auOpenC (nameOf .navBrandK) ++ w1 ++ navATagL ++ attrs ++ ">".toList) ++
          (mid ++ ("</a>".toList ++ w2 ++ eauC))) ++ R =
          auOpenC (nameOf .navBrandK) ++ (w1 ++ (navATagL ++ (attrs ++ (">".toList ++
            (mid ++ ("</a>".toList ++ (w2 ++ (eauC ++ R)))))))) from by
        simp [List.append_assoc]]
      exact region_navBrand attrs w1 mid w2 R hattrg hw1 hw2 hmne hmlt
    · simp [grp5, grp3, newMidOf, List.append_assoc]

theorem step_contactAddr (bd : BusinessData) (today : CivilDate) (isIndex : Bool)
    (P : List Seg) (hP : wfSegs P) :
    replaceFirst contactAddrPat
      (fun ps => grp3 ps 0 ++ contactAddressHTML bd ++ grp3 ps 6)
      (renderPage P) =
      (renderPage (updAnchor .contactAddrK (newMidOf bd today isIndex .contactAddrK) P),
        hasAnchor .contactAddrK P) := by
  have hmain := replaceFirst_page .contactAddrK
    [.ws, .lit addrPL, .notch '<', .lit "<br>".toList, .notch '<',
      .lit "</strong></p>".toList, .ws, .lit eauC]
    (fun ps => grp3 ps 0 ++ contactAddressHTML bd ++ grp3 ps 6)
    (newMidOf bd today isIndex .contactAddrK) rfl ?_ P hP
  · exact hmain
  · intro g1 mid g3 R hends hmid
    obtain ⟨⟨w1, hw1, hg1⟩, ⟨w2, hw2, hg3⟩⟩ := hends
    obtain ⟨p1, p2, hp1ne, hp2ne, hp1, hp2, hmeq⟩ := hmid
    subst hg1
    subst hg3
    subst hmeq
    refine ⟨[auOpenC (nameOf .contactAddrK), w1, addrPL, p1, "<br>".toList, p2,
      "</strong></p>".toList, w2, eauC], ?_, ?_⟩
    · rw [show ((auOpenC (nameOf .contactAddrK) ++ w1 ++ addrPL) ++
          ((p1 ++ "<br>".toList ++ p2) ++ ("</strong></p>".toList ++ w2 ++ eauC))) ++ R =
          auOpenC (nameOf .contactAddrK) ++ (w1 ++ (addrPL ++ (p1 ++ ("<br>".toList ++
            (p2 ++ ("</strong></p>".toList ++ (w2 ++ (eauC ++ R)))))))) from by
        simp [List.append_assoc]]
      exact region_contactAddr w1 p1 p2 w2 R hw1 hw2 hp1ne hp1 hp2ne hp2
    · simp [grp3, newMidOf, List.append_assoc]

theorem step_hoursTable (bd : BusinessData) (today : CivilDate) (isIndex : Bool)
    (P : List Seg) (hP : wfSegs P) :
    replaceFirst hoursTablePat
      (fun ps => ps.getD 0 [] ++ hoursTableMid bd today ++ ps.getD 4 [])
      (renderPage P) =
      (renderPage (updAnchor .hoursTableK (newMidOf bd today isIndex .hoursTableK) P),
        hasAnchor .hoursTableK P) := by
  have hmain := replaceFirst_page .hoursTableK
    [.ws, .lazyAny, .ws, .lit eauC]
    (fun ps => ps.getD 0 [] ++ hoursTableMid bd today ++ ps.getD 4 [])
    (newMidOf bd today isIndex .hoursTableK) rfl ?_ P hP
  · exact hmain
  · intro g1 mid g3 R hends hmid
    obtain ⟨hg1, hg3⟩ := hends
    subst hg1
    subst hg3
    obtain ⟨ps, htm, h0, h4⟩ := region_hours mid R hmid
    refine ⟨ps, ?_, ?_⟩
    · rw [show (auOpenC (nameOf .hoursTableK) ++ (mid ++ eauC)) ++ R =
          auOpenC (nameOf .hoursTableK) ++ (mid ++ (eauC ++ R)) from by
        simp [List.append_assoc]]
      exact htm
    · show ps.getD 0 [] ++ hoursTableMid bd today ++ ps.getD 4 [] = _
      rw [h0, h4]
      simp [newMidOf, List.append_assoc]

/-! ## Cleanliness of the generated fragments -/

theorem noMemAppend {c : Char} {a b : List Char} (ha : c ∉ a) (hb : c ∉ b) :
    c ∉ a ++ b := by
  intro h
  rcases List.mem_append.1 h with h | h
  · exact ha h
  · exact hb h

theorem noMemAppendIff (c : Char) (a b : List Char) : c ∉ a ++ b ↔ (c ∉ a ∧ c ∉ b) := by
  simp [List.mem_append, not_or]

theorem appendNeNilRight (a b : List Char) (hb : b ≠ []) : a ++ b ≠ [] := by
  intro e
  exact hb (List.append_eq_nil.1 e).2

theorem appendNeNilLeft (a b : List Char) (ha : a ≠ []) : a ++ b ≠ [] := by
  intro e
  exact ha (List.append_eq_nil.1 e).1

theorem no_lt_of_digits (l : List Char) (h : ∀ c ∈ l, c.isDigit = true) : '<' ∉ l := by
  intro hm
  exact absurd (h _ hm) (by decide)

theorem natToChars_no_lt (n : Nat) : '<' ∉ natToChars n :=
  no_lt_of_digits _ (natToChars_digits n)

theorem jsonEscapeChar_no_lt (c : Char) (h : c ≠ '<') : '<' ∉ jsonEscapeChar c := by
  unfold jsonEscapeChar
  split_ifs
  · decide
  · decide
  · decide
  · decide
  · decide
  · intro hm
    exact h (List.mem_singleton.1 hm).symm

theorem jsonEscape_no_lt (s : List Char) (h : '<' ∉ s) : '<' ∉ jsonEscape s := by
  induction s with
  | nil => simp [jsonEscape]
  | cons c cs ih =>
    have hc : c ≠ '<' := by
      intro e
      exact h (by simp [e])
    have hcs : '<' ∉ cs := fun m => h (List.mem_cons_of_mem _ m)
    show '<' ∉ jsonEscapeChar c ++ jsonEscape cs
    exact noMemAppend (jsonEscapeChar_no_lt c hc) (ih hcs)

theorem jq_no_lt (s : List Char) (h : '<' ∉ s) : '<' ∉ jq s := by
  intro hm
  unfold jq at hm
  rcases List.mem_cons.1 hm with h1 | h1
  · exact absurd h1 (by decide)
  · rcases List.mem_append.1 h1 with h2 | h2
    · exact jsonEscape_no_lt s h h2
    · exact absurd h2 (by decide)

theorem replicate_no_lt (n : Nat) : '<' ∉ List.replicate n ' ' := by
  intro hm
  exact absurd (List.eq_of_mem_replicate hm) (by decide)

theorem jsonKV_no_lt (ind : Nat) (k v : List Char) (hk : '<' ∉ k) (hv : '<' ∉ v) :
    '<' ∉ jsonKV ind k v := by
  unfold jsonKV
  exact noMemAppend (noMemAppend (noMemAppend (replicate_no_lt ind) (jq_no_lt k hk))
    (by decide)) hv

theorem intercalate_cons_two (sep a b : List Char) (t : List (List Char)) :
    List.intercalate sep (a :: b :: t) = a ++ (sep ++ List.intercalate sep (b :: t)) := by
  simp [List.intercalate, List.intersperse]

theorem intercalate_no_mem (c : Char) (sep : List Char) (hsep : c ∉ sep) :
    ∀ ls : List (List Char), (∀ l ∈ ls, c ∉ l) → c ∉ List.intercalate sep ls := by
  intro ls
  induction ls with
  | nil =>
    intro _
    simp [List.intercalate, List.intersperse]
  | cons a t ih =>
    intro h
    cases t with
    | nil =>
      have he : List.intercalate sep [a] = a := by
        simp [List.intercalate, List.intersperse]
      rw [he]
      exact h a (List.mem_cons_self _ _)
    | cons b t' =>
      rw [intercalate_cons_two]
      exact noMemAppend (h a (List.mem_cons_self _ _))
        (noMemAppend hsep (ih (fun l hl => h l (List.mem_cons_of_mem _ hl))))

theorem splitOnChar_ne_nil (sep : Char) : ∀ s : List Char, splitOnChar sep s ≠ [] := by
  intro s
  induction s with
  | nil => simp [splitOnChar]
  | cons x xs ih =>
    by_cases hx : x = sep
    · simp [splitOnChar, hx]
    · rcases heq : splitOnChar sep xs with _ | ⟨p, ps⟩
      · exact absurd heq ih
      · simp [splitOnChar, hx, heq]

theorem splitOnChar_mem_sub (sep : Char) :
    ∀ (s l : List Char), l ∈ splitOnChar sep s → ∀ c ∈ l, c ∈ s := by
  intro s
  induction s with
  | nil =>
    intro l hl c hc
    simp [splitOnChar] at hl
    subst hl
    simp at hc
  | cons x xs ih =>
    intro l hl c hc
    by_cases hx : x = sep
    · simp only [splitOnChar, if_pos hx] at hl
      rcases List.mem_cons.1 hl with rfl | hl
      · simp at hc
      · exact List.mem_cons_of_mem _ (ih l hl c hc)
    · rcases heq : splitOnChar sep xs with _ | ⟨p, ps⟩
      · exact absurd heq (splitOnChar_ne_nil sep xs)
      · simp only [splitOnChar, if_neg hx, heq] at hl
        rcases List.mem_cons.1 hl with rfl | hl
        · rcases List.mem_cons.1 hc with rfl | hc2
          · exact List.mem_cons_self _ _
          · exact List.mem_cons_of_mem _
              (ih p (by rw [heq]; exact List.mem_cons_self _ _) c hc2)
        · exact List.mem_cons_of_mem _
            (ih l (by rw [heq]; exact List.mem_cons_of_mem _ hl) c hc)

theorem indentTail_no_lt (s : List Char) (h : '<' ∉ s) : '<' ∉ indentTail s := by
  have hsub : ∀ l ∈ splitOnChar '\n' s, '<' ∉ l := by
    intro l hl hc
    exact h (splitOnChar_mem_sub '\n' s l hl '<' hc)
  unfold indentTail
  rcases heq : splitOnChar '\n' s with _ | ⟨l, ls⟩
  · simp
  · simp only []
    refine intercalate_no_mem '<' nlc (by decide) _ ?_
    intro l' hl'
    rcases List.mem_cons.1 hl' with rfl | hl'
    · exact hsub _ (by rw [heq]; exact List.mem_cons_self _ _)
    · rcases List.mem_map.1 hl' with ⟨x, hx, rfl⟩
      exact noMemAppend (by decide)
        (hsub x (by rw [heq]; exact List.mem_cons_of_mem _ hx))

theorem renderRule_no_lt (r : OpeningRule) (hd : ∀ d ∈ r.dayOfWeek, '<' ∉ d)
    (ho : '<' ∉ r.opens) (hc : '<' ∉ r.closes) : '<' ∉ renderRule r := by
  unfold renderRule
  simp only [noMemAppendIff]
  and_intros
  all_goals try decide
  · refine intercalate_no_mem '<' (",".toList ++ nlc) (by decide) _ ?_
    intro l hl
    rcases List.mem_map.1 hl with ⟨d, hdm, rfl⟩
    exact noMemAppend (by decide) (jq_no_lt d (hd d hdm))
  · exact jsonKV_no_lt 6 _ _ (by decide) (jq_no_lt _ ho)
  · exact jsonKV_no_lt 6 _ _ (by decide) (jq_no_lt _ hc)

theorem renderStructuredDataJSON_no_lt (sd : StructuredData)
    (h1 : '<' ∉ sd.name) (h2 : '<' ∉ sd.image) (h3 : '<' ∉ sd.streetAddress)
    (h4 : '<' ∉ sd.addressLocality) (h5 : '<' ∉ sd.addressRegion)
    (h6 : '<' ∉ sd.postalCode) (h7 : '<' ∉ sd.addressCountry)
    (h8 : '<' ∉ sd.latitude) (h9 : '<' ∉ sd.longitude) (h10 : '<' ∉ sd.url)
    (h11 : '<' ∉ sd.telephone) (h12 : '<' ∉ sd.priceRange)
    (h13 : ∀ rules, sd.openingHoursSpecification = some rules → ∀ r ∈ rules,
      (∀ d ∈ r.dayOfWeek, '<' ∉ d) ∧ '<' ∉ r.opens ∧ '<' ∉ r.closes)
    (h14 : '<' ∉ sd.description)
    (h15 : ∀ cz, sd.servesCuisine = some cz → '<' ∉ cz) :
    '<' ∉ renderStructuredDataJSON sd := by
  unfold renderStructuredDataJSON
  simp only [noMemAppendIff]
  and_intros
  all_goals try decide
  refine intercalate_no_mem '<' (",".toList ++ nlc) (by decide) _ ?_
  intro l hl
  rcases List.mem_append.1 hl with hl | hl
  · rcases List.mem_append.1 hl with hl | hl
    · rcases List.mem_append.1 hl with hl | hl
      · rcases List.mem_cons.1 hl with rfl | hl
        · decide
        rcases List.mem_cons.1 hl with rfl | hl
        · decide
        rcases List.mem_cons.1 hl with rfl | hl
        · exact jsonKV_no_lt 2 _ _ (by decide) (jq_no_lt _ h1)
        rcases List.mem_cons.1 hl with rfl | hl
        · exact jsonKV_no_lt 2 _ _ (by decide) (jq_no_lt _ h2)
        rcases List.mem_cons.1 hl with rfl | hl
        · -- the address entry
          simp only [noMemAppendIff]
          and_intros
          all_goals try decide
          refine intercalate_no_mem '<' (",".toList ++ nlc) (by decide) _ ?_
          intro l2 hl2
          rcases List.mem_cons.1 hl2 with rfl | hl2
          · decide
          rcases List.mem_cons.1 hl2 with rfl | hl2
          · exact jsonKV_no_lt 4 _ _ (by decide) (jq_no_lt _ h3)
          rcases List.mem_cons.1 hl2 with rfl | hl2
          · exact jsonKV_no_lt 4 _ _ (by decide) (jq_no_lt _ h4)
          rcases List.mem_cons.1 hl2 with rfl | hl2
          · exact jsonKV_no_lt 4 _ _ (by decide) (jq_no_lt _ h5)
          rcases List.mem_cons.1 hl2 with rfl | hl2
          · exact jsonKV_no_lt 4 _ _ (by decide) (jq_no_lt _ h6)
          rcases List.mem_cons.1 hl2 with rfl | hl2
          · exact jsonKV_no_lt 4 _ _ (by decide) (jq_no_lt _ h7)
          simp at hl2
        rcases List.mem_cons.1 hl with rfl | hl
        · -- the geo entry
          simp only [noMemAppendIff]
          and_intros
          all_goals try decide
          refine intercalate_no_mem '<' (",".toList ++ nlc) (by decide) _ ?_
          intro l2 hl2
          rcases List.mem_cons.1 hl2 with rfl | hl2
          · decide
          rcases List.mem_cons.1 hl2 with rfl | hl2
          · exact jsonKV_no_lt 4 _ _ (by decide) h8
          rcases List.mem_cons.1 hl2 with rfl | hl2
          · exact jsonKV_no_lt 4 _ _ (by decide) h9
          simp at hl2
        rcases List.mem_cons.1 hl with rfl | hl
        · exact jsonKV_no_lt 2 _ _ (by decide) (jq_no_lt _ h10)
        rcases List.mem_cons.1 hl with rfl | hl
        · exact jsonKV_no_lt 2 _ _ (by decide) (jq_no_lt _ h11)
        rcases List.mem_cons.1 hl with rfl | hl
        · exact jsonKV_no_lt 2 _ _ (by decide) (jq_no_lt _ h12)
        simp at hl
      · -- the openingHoursSpecification entry
        rcases hOH : sd.openingHoursSpecification with _ | rules
        · rw [hOH] at hl
          simp at hl
        · rw [hOH] at hl
          simp only [List.mem_singleton] at hl
          subst hl
          simp only [noMemAppendIff]
          and_intros
          all_goals try decide
          refine intercalate_no_mem '<' (",".toList ++ nlc) (by decide) _ ?_
          intro l2 hl2
          rcases List.mem_map.1 hl2 with ⟨r, hr, rfl⟩
          have hcl := h13 rules hOH r hr
          exact renderRule_no_lt r hcl.1 hcl.2.1 hcl.2.2
    · simp only [List.mem_singleton] at hl
      subst hl
      exact jsonKV_no_lt 2 _ _ (by decide) (jq_no_lt _ h14)
  · -- the servesCuisine entry
    rcases hSC : sd.servesCuisine with _ | cz
    · rw [hSC] at hl
      simp at hl
    · rw [hSC] at hl
      simp only [List.mem_singleton] at hl
      subst hl
      exact jsonKV_no_lt 2 _ _ (by decide) (jq_no_lt _ (h15 cz hSC))

theorem pushKey_clean (Q : List Char → Prop) :
    ∀ (acc : List (List Char × List (List Char))) (k d : List Char),
      (∀ kd ∈ acc, Q kd.1 ∧ ∀ x ∈ kd.2, Q x) → Q k → Q d →
      ∀ kd ∈ pushKey acc k d, Q kd.1 ∧ ∀ x ∈ kd.2, Q x := by
  intro acc
  induction acc with
  | nil =>
    intro k d _ hk hd kd hkd
    simp [pushKey] at hkd
    subst hkd
    refine ⟨hk, ?_⟩
    intro x hx
    simp at hx
    subst hx
    exact hd
  | cons a rest ih =>
    intro k d hacc hk hd kd hkd
    rcases a with ⟨k', ds⟩
    by_cases he : k' = k
    · simp only [pushKey, if_pos he] at hkd
      rcases List.mem_cons.1 hkd with rfl | hkd
      · refine ⟨(hacc (k', ds) (List.mem_cons_self _ _)).1, ?_⟩
        intro x hx
        rcases List.mem_append.1 hx with hx | hx
        · exact (hacc (k', ds) (List.mem_cons_self _ _)).2 x hx
        · simp at hx
          subst hx
          exact hd
      · exact hacc kd (List.mem_cons_of_mem _ hkd)
    · simp only [pushKey, if_neg he] at hkd
      rcases List.mem_cons.1 hkd with rfl | hkd
      · exact hacc (k', ds) (List.mem_cons_self _ _)
      · exact ih k d (fun x hx => hacc x (List.mem_cons_of_mem _ hx)) hk hd kd hkd

theorem hoursBySlot_clean_aux (Q : List Char → Prop) :
    ∀ (hours : List DaySchedule) (acc : List (List Char × List (List Char))),
      (∀ kd ∈ acc, Q kd.1 ∧ ∀ x ∈ kd.2, Q x) →
      (∀ h ∈ hours, Q (slotKey h) ∧ Q h.day) →
      ∀ kd ∈ hours.foldl
        (fun acc h => if h.closed then acc else pushKey acc (slotKey h) h.day) acc,
        Q kd.1 ∧ ∀ x ∈ kd.2, Q x := by
  intro hours
  induction hours with
  | nil =>
    intro acc hacc _ kd hkd
    exact hacc kd hkd
  | cons h t ih =>
    intro acc hacc hh kd hkd
    simp only [List.foldl_cons] at hkd
    by_cases hc : h.closed = true
    · rw [if_pos hc] at hkd
      exact ih acc hacc (fun x hx => hh x (List.mem_cons_of_mem _ hx)) kd hkd
    · rw [if_neg hc] at hkd
      exact ih _ (pushKey_clean Q acc (slotKey h) h.day hacc
          (hh h (List.mem_cons_self _ _)).1 (hh h (List.mem_cons_self _ _)).2)
        (fun x hx => hh x (List.mem_cons_of_mem _ hx)) kd hkd

theorem openingHoursRules_clean (hours : List DaySchedule)
    (hh : ∀ h ∈ hours, '<' ∉ h.day ∧ '<' ∉ jsStr h.«open» ∧ '<' ∉ jsStr h.close) :
    ∀ r ∈ openingHoursRules hours,
      (∀ d ∈ r.dayOfWeek, '<' ∉ d) ∧ '<' ∉ r.opens ∧ '<' ∉ r.closes := by
  intro r hr
  unfold openingHoursRules at hr
  rcases List.mem_map.1 hr with ⟨kd, hkd, rfl⟩
  have hQ := hoursBySlot_clean_aux (fun x => '<' ∉ x) hours [] (by simp)
    (fun h hm => ⟨noMemAppend (noMemAppend (hh h hm).2.1 (by decide)) (hh h hm).2.2,
      (hh h hm).1⟩) kd hkd
  refine ⟨hQ.2, ?_, ?_⟩
  · show '<' ∉ (splitOnChar '-' kd.1).headD []
    rcases hsp : splitOnChar '-' kd.1 with _ | ⟨p, ps⟩
    · simp
    · simp only [List.headD_cons]
      intro hcm
      exact hQ.1 (splitOnChar_mem_sub '-' kd.1 p
        (by rw [hsp]; exact List.mem_cons_self _ _) _ hcm)
  · show '<' ∉ (match splitOnChar '-' kd.1 with
      | _ :: c :: _ => c
      | _ => "undefined".toList)
    rcases hsp : splitOnChar '-' kd.1 with _ | ⟨p, _ | ⟨c2, ps⟩⟩
    · decide
    · show '<' ∉ "undefined".toList
      decide
    · intro hcm
      exact hQ.1 (splitOnChar_mem_sub '-' kd.1 c2
        (by rw [hsp]; exact List.mem_cons_of_mem _ (List.mem_cons_self _ _)) _ hcm)

theorem getActive_eq_config (bd : BusinessData) (today : CivilDate) (tc : TemporaryClosure)
    (h : getActiveTemporaryClosure bd today = some tc) : bd.temporaryClosure = some tc := by
  unfold getActiveTemporaryClosure at h
  rcases he : bd.temporaryClosure with _ | tc'
  · rw [he] at h
    exact Option.noConfusion h
  · rw [he] at h
    rcases h1 : parseIsoDate tc'.startDate with _ | s <;>
      rcases h2 : parseIsoDate tc'.endDate with _ | e <;>
      simp only [h1, h2] at h
    · exact Option.noConfusion h
    · exact Option.noConfusion h
    · exact Option.noConfusion h
    · split_ifs at h
      exact h

theorem structuredDataJSONFor_no_lt (isIndex : Bool) (bd : BusinessData) (today : CivilDate)
    (hbd : bdClean bd) : '<' ∉ structuredDataJSONFor isIndex bd today := by
  obtain ⟨hn, hnne, hsn, hsnne, hst, hstne, hci, hreg, hrc, hpc, hcc, hpd, hpdne, htel,
    hlat, hlon, hurl, hpr, hdesc, himg, hsc, hhrs, htc⟩ := hbd
  have hOHclean : ∀ rules,
      (generateStructuredData bd today none none).openingHoursSpecification = some rules →
      ∀ r ∈ rules, (∀ d ∈ r.dayOfWeek, '<' ∉ d) ∧ '<' ∉ r.opens ∧ '<' ∉ r.closes := by
    intro rules heq
    have heq2 : (if (if (getActiveTemporaryClosure bd today).isSome then []
        else openingHoursRules bd.hours).length > 0
        then some (if (getActiveTemporaryClosure bd today).isSome then []
          else openingHoursRules bd.hours) else none) = some rules := heq
    by_cases hg : (getActiveTemporaryClosure bd today).isSome = true
    · rw [if_pos hg] at heq2
      simp at heq2
    · rw [if_neg hg] at heq2
      by_cases hlen : (openingHoursRules bd.hours).length > 0
      · rw [if_pos hlen] at heq2
        intro r hr
        rw [← Option.some.inj heq2] at hr
        exact openingHoursRules_clean bd.hours hhrs r hr
      · rw [if_neg hlen] at heq2
        exact Option.noConfusion heq2
  have hSCclean : ∀ cz,
      (generateStructuredData bd today none none).servesCuisine = some cz → '<' ∉ cz := by
    intro cz heq
    rcases hb : bd.servesCuisine with _ | c
    · have heq2 : (match bd.servesCuisine with
          | some c => if c = [] then none else some c
          | none => (none : Option (List Char))) = some cz := heq
      rw [hb] at heq2
      exact Option.noConfusion heq2
    · have heq2 : (match bd.servesCuisine with
          | some c => if c = [] then none else some c
          | none => (none : Option (List Char))) = some cz := heq
      rw [hb] at heq2
      have heq3 : (if c = [] then none else some c) = some cz := heq2
      split_ifs at heq3
      exact (Option.some.inj heq3) ▸ hsc c hb
  have himage : '<' ∉ (generateStructuredData bd today none none).image :=
    noMemAppend (noMemAppend hurl (by decide)) himg
  unfold structuredDataJSONFor
  by_cases hi : isIndex = true
  · rw [if_pos hi]
    exact renderStructuredDataJSON_no_lt _ hn himage hst hci hrc hpc hcc hlat hlon hurl
      htel hpr hOHclean hdesc hSCclean
  · rw [if_neg hi]
    exact renderStructuredDataJSON_no_lt _ hn himage hst hci hrc hpc hcc hlat hlon hurl
      htel hpr hOHclean hdesc (fun cz heq => Option.noConfusion heq)

theorem inertB_cons_lt (d : Char) (a : List Char) :
    inertB ('<' :: d :: a) = if d = '!' then false else inertB (d :: a) := rfl

theorem inertB_cons_ne (c : Char) (a : List Char) (hc : ¬ c = '<') :
    inertB (c :: a) = inertB a := by
  cases a with
  | nil =>
    show (if c = '<' then false else inertB []) = inertB []
    rw [if_neg hc]
  | cons d t =>
    show (if c = '<' then if d = '!' then false else inertB (d :: t)
        else inertB (d :: t)) = inertB (d :: t)
    rw [if_neg hc]

theorem inertB_append : ∀ (a b : List Char), inertB a = true → inertB b = true →
    inertB (a ++ b) = true := by
  intro a
  induction a with
  | nil =>
    intro b _ hb
    simpa using hb
  | cons c a' ih =>
    intro b ha hb
    by_cases hc : c = '<'
    · subst hc
      cases a' with
      | nil => exact absurd ha (by simp [inertB])
      | cons d a'' =>
        rw [inertB_cons_lt] at ha
        rw [List.cons_append, List.cons_append, inertB_cons_lt, ← List.cons_append]
        by_cases hd : d = '!'
        · rw [if_pos hd] at ha
          simp at ha
        · rw [if_neg hd] at ha ⊢
          exact ih b ha hb
    · rw [List.cons_append, inertB_cons_ne c _ hc]
      rw [inertB_cons_ne c a' hc] at ha
      exact ih b ha hb

theorem monthName_no_lt (m : Nat) : '<' ∉ monthName m := by
  unfold monthName
  split <;> decide

theorem dayName_no_lt (d : Nat) : '<' ∉ dayName d := by
  unfold dayName
  split <;> decide

theorem formatDate_no_lt (s : List Char) : '<' ∉ formatDate s := by
  unfold formatDate
  rcases hp : parseIsoDate s with _ | dt
  · decide
  · show '<' ∉ monthName dt.month ++ " ".toList ++ natToChars dt.day ++ ", ".toList ++
      natToChars dt.year
    exact noMemAppend (noMemAppend (noMemAppend (noMemAppend (monthName_no_lt dt.month)
      (by decide)) (natToChars_no_lt dt.day)) (by decide)) (natToChars_no_lt dt.year)

theorem formatDateWithDay_no_lt (s : List Char) : '<' ∉ formatDateWithDay s := by
  unfold formatDateWithDay
  rcases hp : parseIsoDate s with _ | dt
  · decide
  · show '<' ∉ dayName (jsGetDay dt) ++ ", ".toList ++ monthName dt.month ++ " ".toList ++
      natToChars dt.day ++ ", ".toList ++ natToChars dt.year
    exact noMemAppend (noMemAppend (noMemAppend (noMemAppend (noMemAppend (noMemAppend
      (dayName_no_lt _) (by decide)) (monthName_no_lt dt.month)) (by decide))
      (natToChars_no_lt dt.day)) (by decide)) (natToChars_no_lt dt.year)

theorem formatTime12Hour_no_lt (o : Option (List Char)) (h : '<' ∉ jsStr o) :
    '<' ∉ jsStr (formatTime12Hour o) := by
  rcases o with _ | s
  · decide
  · simp only [jsStr] at h
    by_cases hs : s = []
    · subst hs
      decide
    · have hmin : '<' ∉ (match splitOnChar ':' s with
          | _ :: m :: _ => m
          | _ => "undefined".toList) := by
        rcases hsp : splitOnChar ':' s with _ | ⟨p, _ | ⟨m, ps⟩⟩
        · decide
        · show '<' ∉ "undefined".toList
          decide
        · intro hm
          exact h (splitOnChar_mem_sub ':' s m
            (by rw [hsp]; exact List.mem_cons_of_mem _ (List.mem_cons_self _ _)) '<' hm)
      have hampm : '<' ∉ (match jsParseInt ((splitOnChar ':' s).headD []) with
          | some hr => if 12 ≤ hr then "pm".toList else "am".toList
          | none => "am".toList) := by
        rcases jsParseInt ((splitOnChar ':' s).headD []) with _ | hr
        · decide
        · by_cases h12 : 12 ≤ hr
          · show '<' ∉ (if 12 ≤ hr then "pm".toList else "am".toList)
            rw [if_pos h12]
            decide
          · show '<' ∉ (if 12 ≤ hr then "pm".toList else "am".toList)
            rw [if_neg h12]
            decide
      show '<' ∉ jsStr (formatTime12Hour (some s))
      simp only [formatTime12Hour]
      rw [if_neg hs]
      show '<' ∉ natToChars (match jsParseInt ((splitOnChar ':' s).headD []) with
          | some hr => if hr % 12 = 0 then 12 else hr % 12
          | none => 12) ++ ":".toList ++
        (match splitOnChar ':' s with
          | _ :: m :: _ => m
          | _ => "undefined".toList) ++ " ".toList ++
        (match jsParseInt ((splitOnChar ':' s).headD []) with
          | some hr => if 12 ≤ hr then "pm".toList else "am".toList
          | none => "am".toList)
      exact noMemAppend (noMemAppend (noMemAppend (noMemAppend (natToChars_no_lt _)
        (by decide)) hmin) (by decide)) hampm

theorem hoursTableRow_inert (h : DaySchedule) (hd : '<' ∉ h.day)
    (ho : '<' ∉ jsStr (formatTime12Hour h.«open»))
    (hc : '<' ∉ jsStr (formatTime12Hour h.close)) :
    inertB (hoursTableRow h) = true := by
  show inertB ("<tr><td><strong>".toList ++ h.day ++ "</strong></td><td>".toList ++
    (if h.closed then "Closed".toList
     else jsStr (formatTime12Hour h.«open») ++ " – ".toList ++
       jsStr (formatTime12Hour h.close)) ++ "</td></tr>".toList) = true
  refine inertB_append _ _ (inertB_append _ _ (inertB_append _ _ (inertB_append _ _
    (by decide) (noLt_inertB _ hd)) (by decide)) ?_) (by decide)
  by_cases hcl : h.closed = true
  · rw [if_pos hcl]
    decide
  · rw [if_neg hcl]
    exact inertB_append _ _ (inertB_append _ _ (noLt_inertB _ ho) (by decide))
      (noLt_inertB _ hc)

theorem hoursFold_inert : ∀ (hs : List DaySchedule) (acc : List Char),
    inertB acc = true →
    (∀ h ∈ hs, '<' ∉ h.day ∧ '<' ∉ jsStr h.«open» ∧ '<' ∉ jsStr h.close) →
    inertB (hs.foldl (fun acc h => acc ++ hoursTableRow h) acc) = true := by
  intro hs
  induction hs with
  | nil =>
    intro acc ha _
    simpa using ha
  | cons h t ih =>
    intro acc ha hh
    simp only [List.foldl_cons]
    refine ih _ (inertB_append _ _ ha (hoursTableRow_inert h
      (hh h (List.mem_cons_self _ _)).1
      (formatTime12Hour_no_lt _ (hh h (List.mem_cons_self _ _)).2.1)
      (formatTime12Hour_no_lt _ (hh h (List.mem_cons_self _ _)).2.2)))
      (fun x hx => hh x (List.mem_cons_of_mem _ hx))

theorem generateClosureCardHTML_inert (bd : BusinessData) (today : CivilDate)
    (htc : ∀ tc, bd.temporaryClosure = some tc → ∀ m, tc.message = some m → '<' ∉ m) :
    inertB (generateClosureCardHTML bd today) = true := by
  rcases hg : getActiveTemporaryClosure bd today with _ | tc
  · unfold generateClosureCardHTML
    rw [hg]
    rfl
  · have hmsg : inertB (match tc.message with
        | some m => if m = [] then "Temporarily closed".toList else m
        | none => "Temporarily closed".toList) = true := by
      rcases hv : tc.message with _ | m
      · decide
      · show inertB (if m = [] then "Temporarily closed".toList else m) = true
        by_cases hm : m = []
        · rw [if_pos hm]
          decide
        · rw [if_neg hm]
          exact noLt_inertB _ (htc tc (getActive_eq_config bd today tc hg) m hv)
    unfold generateClosureCardHTML
    rw [hg]
    show inertB (cardPart1 ++ warningIcon ++ cardPart2 ++
      (match tc.message with
        | some m => if m = [] then "Temporarily closed".toList else m
        | none => "Temporarily closed".toList) ++ cardPart3 ++
      formatDate tc.startDate ++ " – ".toList ++ formatDate tc.endDate ++ cardPart4 ++
      formatDateWithDay (getNextDay tc.endDate) ++ cardPart5) = true
    exact inertB_append _ _ (inertB_append _ _ (inertB_append _ _ (inertB_append _ _
      (inertB_append _ _ (inertB_append _ _ (inertB_append _ _ (inertB_append _ _
      (inertB_append _ _ (inertB_append _ _ (by decide) (by decide)) (by decide)) hmsg)
      (by decide)) (noLt_inertB _ (formatDate_no_lt _))) (by decide))
      (noLt_inertB _ (formatDate_no_lt _))) (by decide))
      (noLt_inertB _ (formatDateWithDay_no_lt _))) (by decide)

theorem hoursTableMid_inert (bd : BusinessData) (today : CivilDate)
    (hh : ∀ h ∈ bd.hours, '<' ∉ h.day ∧ '<' ∉ jsStr h.«open» ∧ '<' ∉ jsStr h.close)
    (htc : ∀ tc, bd.temporaryClosure = some tc → ∀ m, tc.message = some m → '<' ∉ m) :
    inertB (hoursTableMid bd today) = true := by
  show inertB ((if generateClosureCardHTML bd today = [] then []
      else generateClosureCardHTML bd today) ++
    (if (getActiveTemporaryClosure bd today).isSome then
      closedTableOpen ++ generateHoursTableHTML bd ++ "</table>".toList
     else plainTableOpen ++ generateHoursTableHTML bd ++ "</table>".toList)) = true
  refine inertB_append _ _ ?_ ?_
  · by_cases hcc : generateClosureCardHTML bd today = []
    · rw [if_pos hcc]
      decide
    · rw [if_neg hcc]
      exact generateClosureCardHTML_inert bd today htc
  · by_cases hs : (getActiveTemporaryClosure bd today).isSome = true
    · rw [if_pos hs]
      exact inertB_append _ _ (inertB_append _ _ (by decide)
        (hoursFold_inert bd.hours [] (by decide) hh)) (by decide)
    · rw [if_neg hs]
      exact inertB_append _ _ (inertB_append _ _ (by decide)
        (hoursFold_inert bd.hours [] (by decide) hh)) (by decide)

theorem wfMid_newMid (bd : BusinessData) (today : CivilDate) (isIndex : Bool)
    (hbd : bdClean bd) : ∀ k, wfMid k (newMidOf bd today isIndex k) := by
  have hjson := structuredDataJSONFor_no_lt isIndex bd today hbd
  obtain ⟨hn, hnne, hsn, hsnne, hst, hstne, hci, hreg, hrc, hpc, hcc, hpd, hpdne, htel,
    hlat, hlon, hurl, hpr, hdesc, himg, hsc, hhrs, htc⟩ := hbd
  intro k
  cases k
  case structK =>
    show '<' ∉ "\n    ".toList ++ indentTail (structuredDataJSONFor isIndex bd today) ++
      "\n    ".toList
    exact noMemAppend (noMemAppend (by decide) (indentTail_no_lt _ hjson)) (by decide)
  case addressBarK =>
    refine ⟨?_, ?_⟩
    · show generateAddressBarHTML bd ≠ []
      unfold generateAddressBarHTML
      exact appendNeNilRight _ _ hpdne
    · show '<' ∉ generateAddressBarHTML bd
      unfold generateAddressBarHTML
      exact noMemAppend (noMemAppend (noMemAppend (noMemAppend (noMemAppend (noMemAppend
        (noMemAppend (noMemAppend hst (by decide)) hci) (by decide)) hreg) (by decide))
        hpc) (by decide)) hpd
  case navBrandK => exact ⟨hsnne, hsn⟩
  case brandHeaderK => exact ⟨hnne, hn⟩
  case hoursTableK => exact hoursTableMid_inert bd today hhrs htc
  case phoneK => exact ⟨hpdne, hpd⟩
  case contactAddrK =>
    refine ⟨bd.address.street, bd.address.city ++ ", ".toList ++ bd.address.region ++
      " ".toList ++ bd.address.postalCode, hstne, ?_, hst, ?_, ?_⟩
    · exact appendNeNilLeft _ _ (appendNeNilRight _ _ (by decide))
    · exact noMemAppend (noMemAppend (noMemAppend (noMemAppend hci (by decide)) hreg)
        (by decide)) hpc
    · show contactAddressHTML bd = _
      unfold contactAddressHTML
      simp [List.append_assoc]

/-! ## Segment-level behaviour of the patcher -/

theorem wfSegs_updAnchor (k : AnchorKind) (nm : List Char) (hnm : wfMid k nm) :
    ∀ P : List Seg, wfSegs P → wfSegs (updAnchor k nm P) := by
  intro P
  induction P with
  | nil =>
    intro h
    exact h
  | cons s rest ih =>
    intro hP t ht
    cases s with
    | text tx =>
      simp only [updAnchor] at ht
      rcases List.mem_cons.1 ht with rfl | ht
      · exact hP _ (List.mem_cons_self _ _)
      · exact ih (fun x hx => hP x (List.mem_cons_of_mem _ hx)) t ht
    | anch k2 g1 mid g3 =>
      simp only [updAnchor] at ht
      by_cases he : k2 = k
      · rw [if_pos he] at ht
        rcases List.mem_cons.1 ht with rfl | ht
        · subst he
          exact ⟨(hP _ (List.mem_cons_self _ _)).1, hnm⟩
        · exact hP _ (List.mem_cons_of_mem _ ht)
      · rw [if_neg he] at ht
        rcases List.mem_cons.1 ht with rfl | ht
        · exact hP _ (List.mem_cons_self _ _)
        · exact ih (fun x hx => hP x (List.mem_cons_of_mem _ hx)) t ht

theorem hasAnchor_updAnchor (k k' : AnchorKind) (nm : List Char) :
    ∀ P : List Seg, hasAnchor k' (updAnchor k nm P) = hasAnchor k' P := by
  intro P
  induction P with
  | nil => rfl
  | cons s rest ih =>
    cases s with
    | text t =>
      simp only [updAnchor, hasAnchor, ih]
    | anch k2 g1 mid g3 =>
      simp only [updAnchor]
      by_cases he : k2 = k
      · rw [if_pos he]
        rfl
      · rw [if_neg he]
        simp only [hasAnchor, ih]

theorem updAnchor_comm (k k' : AnchorKind) (nm nm' : List Char) (hne : k ≠ k') :
    ∀ P : List Seg, updAnchor k nm (updAnchor k' nm' P) = updAnchor k' nm' (updAnchor k nm P) := by
  intro P
  induction P with
  | nil => rfl
  | cons s rest ih =>
    cases s with
    | text t =>
      simp only [updAnchor, ih]
    | anch k2 g1 mid g3 =>
      by_cases h1 : k2 = k'
      · have h2 : ¬ (k2 = k) := by
          intro h2
          exact hne (h2 ▸ h1)
        simp only [updAnchor, if_pos h1, if_neg h2]
      · by_cases h2 : k2 = k
        · simp only [updAnchor, if_pos h2, if_neg h1]
        · simp only [updAnchor, if_neg h1, if_neg h2, ih]

theorem updAnchor_idem (k : AnchorKind) (nm : List Char) :
    ∀ P : List Seg, updAnchor k nm (updAnchor k nm P) = updAnchor k nm P := by
  intro P
  induction P with
  | nil => rfl
  | cons s rest ih =>
    cases s with
    | text t =>
      simp only [updAnchor, ih]
    | anch k2 g1 mid g3 =>
      by_cases he : k2 = k
      · simp only [updAnchor, if_pos he]
      · simp only [updAnchor, if_neg he, ih]

theorem updAnchor_not_has (k : AnchorKind) (nm : List Char) :
    ∀ P : List Seg, hasAnchor k P = false → updAnchor k nm P = P := by
  intro P
  induction P with
  | nil =>
    intro _
    rfl
  | cons s rest ih =>
    intro h
    cases s with
    | text t =>
      simp only [hasAnchor] at h
      simp only [updAnchor, ih h]
    | anch k2 g1 mid g3 =>
      simp only [hasAnchor, Bool.or_eq_false_iff, decide_eq_false_iff_not] at h
      simp only [updAnchor, if_neg h.1, ih h.2]

theorem wfSegs_updatePage (bd : BusinessData) (today : CivilDate) (isIndex isContact : Bool)
    (P : List Seg) (hP : wfSegs P) (hbd : bdClean bd) :
    wfSegs (updatePage bd today isIndex isContact P) := by
  have hm := wfMid_newMid bd today isIndex hbd
  unfold updatePage
  by_cases hc : isContact = true
  · rw [if_pos hc]
    exact wfSegs_updAnchor _ _ (hm _) _ (wfSegs_updAnchor _ _ (hm _) _
      (wfSegs_updAnchor _ _ (hm _) _ (wfSegs_updAnchor _ _ (hm _) _
      (wfSegs_updAnchor _ _ (hm _) _ (wfSegs_updAnchor _ _ (hm _) _
      (wfSegs_updAnchor _ _ (hm _) _ hP))))))
  · rw [if_neg hc]
    exact wfSegs_updAnchor _ _ (hm _) _ (wfSegs_updAnchor _ _ (hm _) _
      (wfSegs_updAnchor _ _ (hm _) _ (wfSegs_updAnchor _ _ (hm _) _ hP)))

theorem updateHTMLFile_page (bd : BusinessData) (today : CivilDate) (isIndex isContact : Bool)
    (P : List Seg) (hP : wfSegs P) (hbd : bdClean bd) :
    updateHTMLFile bd today isIndex isContact (renderPage P) =
      (renderPage (updatePage bd today isIndex isContact P), pageUpdated isContact P) := by
  have hm := wfMid_newMid bd today isIndex hbd
  have hP1 := wfSegs_updAnchor _ _ (hm AnchorKind.structK) _ hP
  have hP2 := wfSegs_updAnchor _ _ (hm AnchorKind.addressBarK) _ hP1
  have hP3 := wfSegs_updAnchor _ _ (hm AnchorKind.navBrandK) _ hP2
  have hP4 := wfSegs_updAnchor _ _ (hm AnchorKind.brandHeaderK) _ hP3
  have hP5 := wfSegs_updAnchor _ _ (hm AnchorKind.hoursTableK) _ hP4
  have hP6 := wfSegs_updAnchor _ _ (hm AnchorKind.phoneK) _ hP5
  by_cases hc : isContact = true
  · rw [hc]
    simp only [updateHTMLFile, updatePage, pageUpdated, if_pos rfl,
      step_struct bd today isIndex P hP,
      step_addressBar bd today isIndex _ hP1,
      step_navBrand bd today isIndex _ hP2,
      step_brandHeader bd today isIndex _ hP3,
      step_hoursTable bd today isIndex _ hP4,
      step_phone bd today isIndex _ hP5,
      step_contactAddr bd today isIndex _ hP6,
      hasAnchor_updAnchor, Bool.true_and, Bool.or_assoc, if_true]
  · have hc' : isContact = false := by
      rcases isContact with _ | _
      · rfl
      · exact absurd rfl hc
    rw [hc']
    simp only [updateHTMLFile, updatePage, pageUpdated, Bool.false_and, Bool.or_false,
      step_struct bd today isIndex P hP,
      step_addressBar bd today isIndex _ hP1,
      step_navBrand bd today isIndex _ hP2,
      step_brandHeader bd today isIndex _ hP3,
      hasAnchor_updAnchor, Bool.or_assoc, if_neg Bool.false_ne_true]

theorem updatePage_idem (bd : BusinessData) (today : CivilDate) (isIndex isContact : Bool)
    (P : List Seg) :
    updatePage bd today isIndex isContact (updatePage bd today isIndex isContact P) =
      updatePage bd today isIndex isContact P := by
  by_cases hc : isContact = true
  · rw [hc]
    simp only [updatePage, eq_self_iff_true, if_true]
    rw [updAnchor_comm AnchorKind.structK AnchorKind.contactAddrK _ _ (by decide),
        updAnchor_comm AnchorKind.structK AnchorKind.phoneK _ _ (by decide),
        updAnchor_comm AnchorKind.structK AnchorKind.hoursTableK _ _ (by decide),
        updAnchor_comm AnchorKind.structK AnchorKind.brandHeaderK _ _ (by decide),
        updAnchor_comm AnchorKind.structK AnchorKind.navBrandK _ _ (by decide),
        updAnchor_comm AnchorKind.structK AnchorKind.addressBarK _ _ (by decide),
        updAnchor_idem,
        updAnchor_comm AnchorKind.addressBarK AnchorKind.contactAddrK _ _ (by decide),
        updAnchor_comm AnchorKind.addressBarK AnchorKind.phoneK _ _ (by decide),
        updAnchor_comm AnchorKind.addressBarK AnchorKind.hoursTableK _ _ (by decide),
        updAnchor_comm AnchorKind.addressBarK AnchorKind.brandHeaderK _ _ (by decide),
        updAnchor_comm AnchorKind.addressBarK AnchorKind.navBrandK _ _ (by decide),
        updAnchor_idem,
        updAnchor_comm AnchorKind.navBrandK AnchorKind.contactAddrK _ _ (by decide),
        updAnchor_comm AnchorKind.navBrandK AnchorKind.phoneK _ _ (by decide),
        updAnchor_comm AnchorKind.navBrandK AnchorKind.hoursTableK _ _ (by decide),
        updAnchor_comm AnchorKind.navBrandK AnchorKind.brandHeaderK _ _ (by decide),
        updAnchor_idem,
        updAnchor_comm AnchorKind.brandHeaderK AnchorKind.contactAddrK _ _ (by decide),
        updAnchor_comm AnchorKind.brandHeaderK AnchorKind.phoneK _ _ (by decide),
        updAnchor_comm AnchorKind.brandHeaderK AnchorKind.hoursTableK _ _ (by decide),
        updAnchor_idem,
        updAnchor_comm AnchorKind.hoursTableK AnchorKind.contactAddrK _ _ (by decide),
        updAnchor_comm AnchorKind.hoursTableK AnchorKind.phoneK _ _ (by decide),
        updAnchor_idem,
        updAnchor_comm AnchorKind.phoneK AnchorKind.contactAddrK _ _ (by decide),
        updAnchor_idem,
        updAnchor_idem]
  · have hc' : isContact = false := by
      rcases isContact with _ | _
      · rfl
      · exact absurd rfl hc
    rw [hc']
    simp only [updatePage, if_neg Bool.false_ne_true]
    rw [updAnchor_comm AnchorKind.structK AnchorKind.brandHeaderK _ _ (by decide),
        updAnchor_comm AnchorKind.structK AnchorKind.navBrandK _ _ (by decide),
        updAnchor_comm AnchorKind.structK AnchorKind.addressBarK _ _ (by decide),
        updAnchor_idem,
        updAnchor_comm AnchorKind.addressBarK AnchorKind.brandHeaderK _ _ (by decide),
        updAnchor_comm AnchorKind.addressBarK AnchorKind.navBrandK _ _ (by decide),
        updAnchor_idem,
        updAnchor_comm AnchorKind.navBrandK AnchorKind.brandHeaderK _ _ (by decide),
        updAnchor_idem,
        updAnchor_idem]

theorem christophers_clean : bdClean christophers := by
  unfold bdClean
  and_intros
  all_goals decide

theorem pageW_wf : wfSegs pageW := by
  intro s hs
  simp only [pageW, List.mem_cons, List.not_mem_nil, or_false] at hs
  rcases hs with rfl | rfl | rfl
  · show inertB "<html><body>".toList = true
    decide
  · exact ⟨⟨rfl, rfl⟩, (by decide : inertB "<p>old hours</p>".toList = true)⟩
  · show inertB "</body></html>".toList = true
    decide

/-- C2: on any well-formed decomposed document and any clean business profile,
running `updateHTMLFile` a second time (same profile, same date, same document
kind) on the content produced by the first run yields content identical to the
first run's output. -/
theorem c2_idempotent (bd : BusinessData) (today : CivilDate) (isIndex isContact : Bool)
    (P : List Seg) (hP : wfSegs P) (hbd : bdClean bd) :
    (updateHTMLFile bd today isIndex isContact
        (updateHTMLFile bd today isIndex isContact (renderPage P)).1).1 =
      (updateHTMLFile bd today isIndex isContact (renderPage P)).1 := by
  rw [updateHTMLFile_page bd today isIndex isContact P hP hbd]
  show (updateHTMLFile bd today isIndex isContact
      (renderPage (updatePage bd today isIndex isContact P))).1 =
    renderPage (updatePage bd today isIndex isContact P)
  rw [updateHTMLFile_page bd today isIndex isContact _
    (wfSegs_updatePage bd today isIndex isContact P hP hbd) hbd]
  show renderPage (updatePage bd today isIndex isContact
    (updatePage bd today isIndex isContact P)) =
    renderPage (updatePage bd today isIndex isContact P)
  rw [updatePage_idem]

/-- C2 witness: concrete second run on the repository profile and a concrete
contact document. -/
theorem c2_witness :
    (updateHTMLFile christophers ⟨2025, 10, 12⟩ false true
        (updateHTMLFile christophers ⟨2025, 10, 12⟩ false true (renderPage pageW)).1).1 =
      (updateHTMLFile christophers ⟨2025, 10, 12⟩ false true (renderPage pageW)).1 :=
  c2_idempotent christophers ⟨2025, 10, 12⟩ false true pageW pageW_wf christophers_clean

/-- C3 (amended): `updateHTMLFile` reports a document as updated — the exact
condition under which `main` rewrites it to storage — precisely when at least
one anchor processed for its document type is present, regardless of whether
the replacement changes any byte; and when no processed anchor is present the
content is returned untouched.  The original claim's "and produced a change"
clause does not hold: the flag records only that the pattern matched. -/
theorem c3_update_flag (bd : BusinessData) (today : CivilDate) (isIndex isContact : Bool)
    (P : List Seg) (hP : wfSegs P) (hbd : bdClean bd) :
    (updateHTMLFile bd today isIndex isContact (renderPage P)).2 = pageUpdated isContact P ∧
      (pageUpdated isContact P = false →
        (updateHTMLFile bd today isIndex isContact (renderPage P)).1 = renderPage P) := by
  constructor
  · rw [updateHTMLFile_page bd today isIndex isContact P hP hbd]
  · intro hno
    rw [updateHTMLFile_page bd today isIndex isContact P hP hbd]
    show renderPage (updatePage bd today isIndex isContact P) = renderPage P
    unfold pageUpdated at hno
    simp only [Bool.or_eq_false_iff] at hno
    obtain ⟨⟨⟨⟨h1, h2⟩, h3⟩, h4⟩, h5⟩ := hno
    simp only [updatePage]
    by_cases hc : isContact = true
    · rw [if_pos hc]
      rw [hc] at h5
      simp only [Bool.true_and, Bool.or_eq_false_iff] at h5
      obtain ⟨⟨h6, h7⟩, h8⟩ := h5
      rw [updAnchor_not_has _ _ P h1, updAnchor_not_has _ _ P h2,
          updAnchor_not_has _ _ P h3, updAnchor_not_has _ _ P h4,
          updAnchor_not_has _ _ P h6, updAnchor_not_has _ _ P h7,
          updAnchor_not_has _ _ P h8]
    · rw [if_neg hc]
      rw [updAnchor_not_has _ _ P h1, updAnchor_not_has _ _ P h2,
          updAnchor_not_has _ _ P h3, updAnchor_not_has _ _ P h4]

/-- C3 counterexample to the original claim: a document whose single anchor
already holds exactly the content the patcher would install is returned
byte-for-byte unchanged, yet it is still reported as updated (and hence
rewritten to storage by `main`), because the flag records only that the
regular expression matched, not that the replacement changed anything. -/
theorem c3_counterexample :
    updateHTMLFile christophers ⟨2025, 10, 12⟩ false false upToDateDoc =
      (upToDateDoc, true) := by
  decide

/-- C3 witness: the amended statement at the repository profile and a concrete
contact document. -/
theorem c3_witness :
    (updateHTMLFile christophers ⟨2025, 10, 12⟩ false true (renderPage pageW)).2 =
        pageUpdated true pageW ∧
      (pageUpdated true pageW = false →
        (updateHTMLFile christophers ⟨2025, 10, 12⟩ false true (renderPage pageW)).1 =
          renderPage pageW) :=
  c3_update_flag christophers ⟨2025, 10, 12⟩ false true pageW pageW_wf christophers_clean

theorem updatePage_pair (bd : BusinessData) (today : CivilDate) (isIndex : Bool)
    (k1 k2 : AnchorKind) (hne : k1 ≠ k2) (t0 t2 g1 m1 g3 g1' m2 g3' : List Char) :
    updatePage bd today isIndex true
        [Seg.text t0, Seg.anch k1 g1 m1 g3, Seg.anch k2 g1' m2 g3', Seg.text t2] =
      [Seg.text t0, Seg.anch k1 g1 (newMidOf bd today isIndex k1) g3,
        Seg.anch k2 g1' (newMidOf bd today isIndex k2) g3', Seg.text t2] := by
  revert hne
  cases k1 <;> cases k2 <;> intro hne <;>
    first
      | exact absurd rfl hne
      | simp [updatePage, updAnchor]

/-- C4: frame property of the patcher.  For a document made of two anchor
regions of different kinds placed directly next to each other (with arbitrary
inert text around the pair), a contact-page run replaces each anchor's
interior independently with the generated content for its kind, and every
byte outside the two interiors — the surrounding text and the sentinel groups
themselves — is unchanged: matching is bounded at the nearest closing
sentinel. -/
theorem c4_isolation (bd : BusinessData) (today : CivilDate) (isIndex : Bool)
    (k1 k2 : AnchorKind) (hne : k1 ≠ k2) (t0 t2 g1 m1 g3 g1' m2 g3' : List Char)
    (ht0 : inertB t0 = true) (ht2 : inertB t2 = true)
    (h1 : wfEnds k1 g1 g3) (hm1 : wfMid k1 m1)
    (h2 : wfEnds k2 g1' g3') (hm2 : wfMid k2 m2)
    (hbd : bdClean bd) :
    (updateHTMLFile bd today isIndex true
        (t0 ++ ((g1 ++ (m1 ++ g3)) ++ ((g1' ++ (m2 ++ g3')) ++ t2)))).1 =
      t0 ++ ((g1 ++ (newMidOf bd today isIndex k1 ++ g3)) ++
        ((g1' ++ (newMidOf bd today isIndex k2 ++ g3')) ++ t2)) := by
  have hwf : wfSegs
      [Seg.text t0, Seg.anch k1 g1 m1 g3, Seg.anch k2 g1' m2 g3', Seg.text t2] := by
    intro s hs
    simp only [List.mem_cons, List.not_mem_nil, or_false] at hs
    rcases hs with rfl | rfl | rfl | rfl
    · exact ht0
    · exact ⟨h1, hm1⟩
    · exact ⟨h2, hm2⟩
    · exact ht2
  have hren : renderPage
      [Seg.text t0, Seg.anch k1 g1 m1 g3, Seg.anch k2 g1' m2 g3', Seg.text t2] =
      t0 ++ ((g1 ++ (m1 ++ g3)) ++ ((g1' ++ (m2 ++ g3')) ++ t2)) := by
    simp [renderPage, renderSeg]
  rw [← hren, updateHTMLFile_page bd today isIndex true _ hwf hbd]
  show renderPage (updatePage bd today isIndex true
      [Seg.text t0, Seg.anch k1 g1 m1 g3, Seg.anch k2 g1' m2 g3', Seg.text t2]) =
    t0 ++ ((g1 ++ (newMidOf bd today isIndex k1 ++ g3)) ++
      ((g1' ++ (newMidOf bd today isIndex k2 ++ g3')) ++ t2))
  rw [updatePage_pair bd today isIndex k1 k2 hne]
  simp [renderPage, renderSeg]

/-- C4 witness: a hours-table anchor and a contact-phone anchor adjacent with
no intervening content, patched with the repository profile. -/
theorem c4_witness :
    (updateHTMLFile christophers ⟨2025, 10, 12⟩ false true
        ("<body>".toList ++
          ((auOpenC (nameOf AnchorKind.hoursTableK) ++ ("<p>x</p>".toList ++ eauC)) ++
            (((auOpenC (nameOf AnchorKind.phoneK) ++ " ".toList ++ phonePL) ++
              ("555-0000".toList ++ ("</strong></p>".toList ++ " ".toList ++ eauC))) ++
              "</body>".toList)))).1 =
      "<body>".toList ++
        ((auOpenC (nameOf AnchorKind.hoursTableK) ++
          (newMidOf christophers ⟨2025, 10, 12⟩ false AnchorKind.hoursTableK ++ eauC)) ++
          (((auOpenC (nameOf AnchorKind.phoneK) ++ " ".toList ++ phonePL) ++
            (newMidOf christophers ⟨2025, 10, 12⟩ false AnchorKind.phoneK ++
              ("</strong></p>".toList ++ " ".toList ++ eauC))) ++
            "</body>".toList)) :=
  c4_isolation christophers ⟨2025, 10, 12⟩ false AnchorKind.hoursTableK AnchorKind.phoneK
    (by decide) "<body>".toList "</body>".toList
    (auOpenC (nameOf AnchorKind.hoursTableK)) "<p>x</p>".toList eauC
    (auOpenC (nameOf AnchorKind.phoneK) ++ " ".toList ++ phonePL)
    "555-0000".toList ("</strong></p>".toList ++ " ".toList ++ eauC)
    (by decide) (by decide)
    ⟨rfl, rfl⟩ (by decide : inertB "<p>x</p>".toList = true)
    ⟨⟨" ".toList, by decide, rfl⟩, ⟨" ".toList, by decide, rfl⟩⟩
    ⟨(by decide : ("555-0000".toList : List Char) ≠ []),
      (by decide : '<' ∉ "555-0000".toList)⟩
    christophers_clean
